import Mathlib

/-!
gh-select: cache store, data provision, row rendering and selection flow.

A shallow embedding of the Go sources

* `internal/gh/gh.go`        (`Repository`, `FetchRepos`)
* `internal/cache/cache.go`  (`CacheTTL`, `Save`, `Load`)
* `internal/tui/tui.go`      (`item`, `itemDelegate.Render`, `model.Update`, `Start`)
* `internal/tui/actions.go`  (`Action`, `actionModel.Update`, `SelectAction`)
* `cmd/gh-select/main.go`    (`rootCmd.Run`)

Conventions.  A Go `string` whose bytes matter (repository fields, file payloads,
rendered rows) is a list of byte values.  Key names and action identifiers, which the
program only ever compares with literals, are Lean strings.  A Go slice is either the
nil slice or a slice with elements.  Operating-system and library calls are explicit
fields of the `World` (what the call answers) or parameters (`Codec`, `Styles`,
`ListEngine`).
-/

namespace GhSelect

/-! ## Data model -/

/-- A Go string as its sequence of bytes (every element stands for a value 0..255). -/
abbrev GoString := List Nat

/-- Go `error` values that the program produces or passes on. -/
inductive Error where
  /-- `fmt.Errorf("cache expired")` -/
  | cacheExpired : Error
  /-- an error of package `os` (`UserCacheDir`, `Stat`, `MkdirAll`, `ReadFile`, `WriteFile`) -/
  | os (code : Nat) : Error
  /-- an error of `encoding/json` -/
  | json (code : Nat) : Error
  /-- an error of running the `gh` process -/
  | exec (code : Nat) : Error
  /-- `fmt.Errorf("failed to fetch repos: %w", err)` -/
  | fetchFailed (inner : Error) : Error
  /-- `fmt.Errorf("failed to parse repos: %w", err)` -/
  | parseFailed (inner : Error) : Error
  /-- an error returned by `tea.Program.Run` -/
  | ui (code : Nat) : Error
  deriving DecidableEq, Repr

/-- The record `gh.Repository` (gh.go, lines 9-13). -/
structure Repository where
  NameWithOwner : GoString
  Description : GoString
  IsPrivate : Bool
  deriving DecidableEq, Repr

/-- A value of Go type `[]gh.Repository`: the nil slice, or a slice with elements
(possibly none: the empty non-nil slice). -/
inductive RepoSlice where
  | nil : RepoSlice
  | slice (elems : List Repository) : RepoSlice
  deriving DecidableEq, Repr

/-- The elements a `range` loop visits. -/
def RepoSlice.toList : RepoSlice → List Repository
  | .nil => []
  | .slice elems => elems

/-- Go `len(repos)`. -/
def RepoSlice.len (r : RepoSlice) : Nat := r.toList.length

/-- Go `repos == nil`. -/
def RepoSlice.isNil : RepoSlice → Bool
  | .nil => true
  | .slice _ => false

/-- The two `encoding/json` entry points the program calls, at type `[]gh.Repository`. -/
structure Codec where
  /-- `json.Marshal(repos)` -/
  Marshal : RepoSlice → Except Error GoString
  /-- `json.Unmarshal(data, &repos)` into a fresh (nil) `repos`: the decoded slice, or the error -/
  Unmarshal : GoString → Except Error RepoSlice

/-! ## unicode/utf8 -/

/-- `utf8.RuneError`, U+FFFD. -/
def RuneError : Nat := 0xFFFD

/-- `utf8.RuneSelf`: bytes below it are single-byte runes. -/
def RuneSelf : Nat := 0x80

/-- `utf8.MaxRune`, U+10FFFF. -/
def MaxRune : Nat := 0x10FFFF

/-- Continuation byte `10xxxxxx`. -/
def isCont (b : Nat) : Bool := 0x80 ≤ b && b ≤ 0xBF

/-- `utf8.DecodeRune` / `utf8.DecodeRuneInString`: the first rune of `s` and its width in
bytes; `(RuneError, 0)` for the empty string, `(RuneError, 1)` for an invalid encoding
(a stray or missing continuation byte, an overlong form, a surrogate, a value above
`MaxRune`). -/
def DecodeRune : GoString → Nat × Nat
  | [] => (RuneError, 0)
  | b0 :: rest =>
    if b0 < 0x80 then (b0, 1)
    else if b0 < 0xC2 then (RuneError, 1)
    else if b0 < 0xE0 then
      match rest with
      | b1 :: _ =>
        if isCont b1 then ((b0 % 32) * 64 + b1 % 64, 2) else (RuneError, 1)
      | _ => (RuneError, 1)
    else if b0 < 0xF0 then
      match rest with
      | b1 :: b2 :: _ =>
        if (if b0 = 0xE0 then 0xA0 else 0x80) ≤ b1 ∧ b1 ≤ (if b0 = 0xED then 0x9F else 0xBF)
            ∧ isCont b2 then
          ((b0 % 16) * 4096 + (b1 % 64) * 64 + b2 % 64, 3)
        else (RuneError, 1)
      | _ => (RuneError, 1)
    else if b0 < 0xF5 then
      match rest with
      | b1 :: b2 :: b3 :: _ =>
        if (if b0 = 0xF0 then 0x90 else 0x80) ≤ b1 ∧ b1 ≤ (if b0 = 0xF4 then 0x8F else 0xBF)
            ∧ isCont b2 ∧ isCont b3 then
          ((b0 % 8) * 262144 + (b1 % 64) * 4096 + (b2 % 64) * 64 + b3 % 64, 4)
        else (RuneError, 1)
      | _ => (RuneError, 1)
    else (RuneError, 1)

/-- `utf8.AppendRune(nil, r)` / `utf8.EncodeRune` for a non-negative rune: the UTF-8
encoding of `r`, or that of `RuneError` when `r` is a surrogate or above `MaxRune`. -/
def EncodeRune (r : Nat) : GoString :=
  if r < 0x80 then [r]
  else if r < 0x800 then [0xC0 + r / 64, 0x80 + r % 64]
  else if MaxRune < r ∨ (0xD800 ≤ r ∧ r ≤ 0xDFFF) then [0xEF, 0xBF, 0xBD]
  else if r < 0x10000 then [0xE0 + r / 4096, 0x80 + r / 64 % 64, 0x80 + r % 64]
  else [0xF0 + r / 262144, 0x80 + r / 4096 % 64, 0x80 + r / 64 % 64, 0x80 + r % 64]

/-- The bytes of a string literal of the source (Go source text is UTF-8). -/
def lit (s : String) : GoString := s.toList.flatMap (fun c => EncodeRune c.toNat)

/-- The loop of `utf8.RuneCountInString`, bounded by the number of bytes left. -/
def runeCountAux : Nat → GoString → Nat
  | 0, _ => 0
  | _ + 1, [] => 0
  | fuel + 1, b :: rest => 1 + runeCountAux fuel (rest.drop ((DecodeRune (b :: rest)).2 - 1))

/-- `utf8.RuneCountInString`: the number of runes in `s`; every byte of an invalid
encoding counts as one rune. -/
def RuneCountInString (s : GoString) : Nat := runeCountAux s.length s

/-- The loop of `utf8.ValidString`, bounded by the number of bytes left. -/
def validAux : Nat → GoString → Bool
  | 0, s => s.isEmpty
  | _ + 1, [] => true
  | fuel + 1, b :: rest =>
    if DecodeRune (b :: rest) = (RuneError, 1) then false
    else validAux fuel (rest.drop ((DecodeRune (b :: rest)).2 - 1))

/-- `utf8.ValidString`: `s` consists entirely of valid UTF-8-encoded runes. -/
def ValidString (s : GoString) : Bool := validAux s.length s

deriving instance DecidableEq for Except

/-! ## encoding/json at type `[]gh.Repository` -/

/-- `hex[n]` for `hex = "0123456789abcdef"` (encoding/json), `n < 16`. -/
def hexDigit (n : Nat) : Nat := if n < 10 then 48 + n else 87 + n

/-- `htmlSafeSet[b]` of encoding/json for a byte below `RuneSelf`: printable ASCII other
than the quote, the backslash, `<`, `>` and `&`. -/
def htmlSafe (b : Nat) : Bool :=
  0x20 ≤ b && b < 0x80 && b != 0x22 && b != 0x5C && b != 0x3C && b != 0x3E && b != 0x26

/-- What `appendString` (encoding/json, `escapeHTML = true`, Go 1.22 and later) writes for
a byte `b` below `RuneSelf`. -/
def escapeByte (b : Nat) : GoString :=
  if htmlSafe b then [b]
  else if b = 0x5C ∨ b = 0x22 then [0x5C, b]
  else if b = 0x08 then lit "\\b"
  else if b = 0x0C then lit "\\f"
  else if b = 0x0A then lit "\\n"
  else if b = 0x0D then lit "\\r"
  else if b = 0x09 then lit "\\t"
  else lit "\\u00" ++ [hexDigit (b / 16), hexDigit (b % 16)]

/-- The loop of `appendString` (encoding/json) over the bytes of a string, without the
surrounding quotes; `fuel` bounds the number of iterations. An invalid byte becomes
`\ufffd`, U+2028 and U+2029 are escaped, every other multi-byte rune is copied. -/
def appendStringAux : Nat → GoString → GoString
  | 0, _ => []
  | _ + 1, [] => []
  | fuel + 1, b :: rest =>
    if b < RuneSelf then escapeByte b ++ appendStringAux fuel rest
    else
      let d := DecodeRune (b :: rest)
      if d = (RuneError, 1) then lit "\\ufffd" ++ appendStringAux fuel rest
      else if d.1 = 0x2028 ∨ d.1 = 0x2029 then
        lit "\\u202" ++ [hexDigit (d.1 % 16)] ++ appendStringAux fuel (rest.drop (d.2 - 1))
      else (b :: rest).take d.2 ++ appendStringAux fuel (rest.drop (d.2 - 1))

/-- `appendString` (encoding/json): the JSON string for `s`, quotes included. -/
def appendString (s : GoString) : GoString :=
  [0x22] ++ appendStringAux s.length s ++ [0x22]

/-- The JSON object `json.Marshal` writes for one `Repository`: the three members in
declaration order under their tag names, no white space. -/
def encodeRepository (r : Repository) : GoString :=
  lit "\x7b\"nameWithOwner\":" ++ appendString r.NameWithOwner
    ++ lit ",\"description\":" ++ appendString r.Description
    ++ lit ",\"isPrivate\":" ++ (if r.IsPrivate then lit "true" else lit "false")
    ++ lit "\x7d"

/-- The elements of a JSON array, separated by commas. -/
def encodeElements : List Repository → GoString
  | [] => []
  | [r] => encodeRepository r
  | r :: rs => encodeRepository r ++ lit "," ++ encodeElements rs

/-- `json.Marshal(repos)` for `repos []gh.Repository`: `null` for the nil slice, otherwise
the array of the elements. It cannot fail at this type. -/
def jsonMarshal : RepoSlice → GoString
  | RepoSlice.nil => lit "null"
  | RepoSlice.slice elems => lit "[" ++ encodeElements elems ++ lit "]"

/-- Value of a hexadecimal digit. -/
def hexVal (b : Nat) : Option Nat :=
  if 48 ≤ b ∧ b ≤ 57 then some (b - 48)
  else if 97 ≤ b ∧ b ≤ 102 then some (b - 87)
  else if 65 ≤ b ∧ b ≤ 70 then some (b - 55)
  else none

/-- `getu4` (encoding/json decode.go): the value of a leading `\uXXXX`, `none` for Go's -1. -/
def getu4 : GoString → Option Nat
  | 0x5C :: 0x75 :: h3 :: h2 :: h1 :: h0 :: _ =>
    match hexVal h3, hexVal h2, hexVal h1, hexVal h0 with
    | some a, some b, some c, some d => some (a * 4096 + b * 256 + c * 16 + d)
    | _, _, _, _ => none
  | _ => none

/-- `utf16.IsSurrogate`. -/
def IsSurrogate (r : Nat) : Bool := 0xD800 ≤ r && r < 0xE000

/-- `utf16.DecodeRune(r1, r2)` with `r2 = none` for Go's -1: the code point of a valid
surrogate pair, U+FFFD otherwise. -/
def utf16DecodeRune (r1 : Nat) (r2 : Option Nat) : Nat :=
  match r2 with
  | some r2 =>
    if 0xD800 ≤ r1 ∧ r1 < 0xDC00 ∧ 0xDC00 ≤ r2 ∧ r2 < 0xE000 then
      (r1 - 0xD800) * 1024 + (r2 - 0xDC00) + 0x10000
    else RuneError
  | none => RuneError

/-- Reading a JSON string after its opening quote: the scanner's string states together
with `unquoteBytes` (encoding/json). Returns the decoded bytes and the input after the
closing quote; `none` for a string the scanner rejects (a control character, a bad
escape, no closing quote). Invalid UTF-8 and unpaired surrogates become U+FFFD. -/
def readString : Nat → GoString → Option (GoString × GoString)
  | 0, _ => none
  | _ + 1, [] => none
  | fuel + 1, b :: rest =>
    if b = 0x22 then some ([], rest)
    else if b = 0x5C then
      match rest with
      | [] => none
      | e :: rest' =>
        let lit1 (c : Nat) : Option (GoString × GoString) :=
          (readString fuel rest').map (fun r => (c :: r.1, r.2))
        if e = 0x22 ∨ e = 0x5C ∨ e = 0x2F then lit1 e
        else if e = 0x62 then lit1 0x08
        else if e = 0x66 then lit1 0x0C
        else if e = 0x6E then lit1 0x0A
        else if e = 0x72 then lit1 0x0D
        else if e = 0x74 then lit1 0x09
        else if e = 0x75 then
          match getu4 (b :: rest) with
          | none => none
          | some rr =>
            let after := rest'.drop 4
            if IsSurrogate rr then
              let dec := utf16DecodeRune rr (getu4 after)
              if dec ≠ RuneError then
                (readString fuel (after.drop 6)).map (fun r => (EncodeRune dec ++ r.1, r.2))
              else (readString fuel after).map (fun r => (EncodeRune RuneError ++ r.1, r.2))
            else (readString fuel after).map (fun r => (EncodeRune rr ++ r.1, r.2))
        else none
    else if b < 0x20 then none
    else if b < RuneSelf then (readString fuel rest).map (fun r => (b :: r.1, r.2))
    else
      let d := DecodeRune (b :: rest)
      (readString fuel (rest.drop (d.2 - 1))).map (fun r => (EncodeRune d.1 ++ r.1, r.2))

/-- Drop the literal `p` from the front of `s`; `none` when `s` does not start with it. -/
def expect : GoString → GoString → Option GoString
  | [], s => some s
  | _ :: _, [] => none
  | p :: ps, b :: s => if p = b then expect ps s else none

/-- Reading `true` or `false`. -/
def readBool (s : GoString) : Option (Bool × GoString) :=
  match expect (lit "true") s with
  | some s' => some (true, s')
  | none =>
    match expect (lit "false") s with
    | some s' => some (false, s')
    | none => none

/-- Reading one object as `json.Marshal` writes it for a `Repository`. -/
def readRepository (fuel : Nat) (s : GoString) : Option (Repository × GoString) :=
  (expect (lit "\x7b\"nameWithOwner\":\"") s).bind fun s =>
  (readString fuel s).bind fun name =>
  (expect (lit ",\"description\":\"") name.2).bind fun s =>
  (readString fuel s).bind fun desc =>
  (expect (lit ",\"isPrivate\":") desc.2).bind fun s =>
  (readBool s).bind fun priv =>
  (expect (lit "\x7d") priv.2).map fun s =>
  ({ NameWithOwner := name.1, Description := desc.1, IsPrivate := priv.1 }, s)

/-- Reading the elements of a non-empty array up to and including the closing bracket.
`n` bounds the string reader, `fuel` the number of elements. -/
def readElements (n : Nat) : Nat → GoString → Option (List Repository × GoString)
  | 0, _ => none
  | fuel + 1, s =>
    (readRepository n s).bind fun r =>
    match r.2 with
    | 0x2C :: s' => (readElements n fuel s').map (fun rs => (r.1 :: rs.1, rs.2))
    | 0x5D :: s' => some ([r.1], s')
    | _ => none

/-- `json.Unmarshal(data, &repos)` for a nil `repos []gh.Repository`, on the documents
`json.Marshal` writes at this type: `null` gives the nil slice, `[]` the empty slice, and
an array of objects with the members `nameWithOwner`, `description`, `isPrivate` in this
order and no white space gives their records. Every other payload is answered with an
error here, also the ones encoding/json accepts (white space, members in another order,
unknown members, `null` members). -/
def jsonUnmarshal (data : GoString) : Except Error RepoSlice :=
  if data = lit "null" then .ok RepoSlice.nil
  else if data = lit "[]" then .ok (RepoSlice.slice [])
  else
    match data with
    | 0x5B :: s =>
      match readElements data.length data.length s with
      | some (rs, []) => .ok (RepoSlice.slice rs)
      | _ => .error (Error.json 0)
    | _ => .error (Error.json 0)

/-- The two functions above as the codec of the program. -/
def goJSON : Codec := { Marshal := fun repos => .ok (jsonMarshal repos), Unmarshal := jsonUnmarshal }

/-- A Unicode scalar value: at most `MaxRune` and no surrogate. -/
def Scalar (c : Nat) : Prop := c ≤ MaxRune ∧ ¬ (0xD800 ≤ c ∧ c ≤ 0xDFFF)

/-- What `appendString` writes for one valid rune `c`. -/
def escapeRune (c : Nat) : GoString :=
  if c < RuneSelf then escapeByte c
  else if c = 0x2028 ∨ c = 0x2029 then lit "\\u202" ++ [hexDigit (c % 16)]
  else EncodeRune c

/-- The two strings of a record are valid UTF-8 (`utf8.ValidString`). -/
def Repository.Valid (r : Repository) : Prop :=
  ValidString r.NameWithOwner = true ∧ ValidString r.Description = true

instance (r : Repository) : Decidable r.Valid :=
  inferInstanceAs (Decidable (_ ∧ _))

/-- Every string of every record of the slice is valid UTF-8. -/
def RepoSlice.Valid (repos : RepoSlice) : Prop := ∀ r ∈ repos.toList, r.Valid

instance (repos : RepoSlice) : Decidable repos.Valid :=
  inferInstanceAs (Decidable (∀ r ∈ repos.toList, r.Valid))

/-! ## The environment -/

/-- The cache file `<UserCacheDir>/gh-select/repos.json` when it exists. -/
structure CacheFile where
  /-- modification time, nanoseconds on the wall clock -/
  modTime : Int
  /-- content -/
  data : GoString
  /-- what `os.ReadFile` fails with on this file, if it fails -/
  readErr : Option Error
  deriving DecidableEq, Repr

/-- What the operating system and the `gh` process answer. -/
structure World where
  /-- wall clock (`time.Now`), nanoseconds -/
  now : Int
  /-- failure of `os.UserCacheDir`, if any -/
  cacheDirErr : Option Error
  /-- the cache slot: `none` when `os.Stat` finds no file -/
  slot : Option CacheFile
  /-- error `os.Stat` reports when there is no file -/
  statErr : Error
  /-- failure of `os.MkdirAll`, if any -/
  mkdirErr : Option Error
  /-- failure of `os.WriteFile`, if any, with what it leaves in the slot -/
  writeErr : Option (Error × Option CacheFile)
  /-- result of `gh repo list --json ... --limit n`: its standard output, or the error -/
  ghList : Nat → Except Error GoString
  /-- failure of `clipboard.WriteAll`, if any -/
  clipboardErr : Option Error

/-! ## internal/cache/cache.go -/

/-- One minute as a `time.Duration` (nanoseconds). -/
def Minute : Int := 60 * 1000000000

/-- `CacheTTL = 30 * time.Minute` (cache.go, line 16). -/
def CacheTTL : Int := 30 * Minute

/-- Largest `time.Duration` (`1<<63 - 1`). -/
def maxDuration : Int := 2 ^ 63 - 1

/-- Smallest `time.Duration` (`-1 << 63`). -/
def minDuration : Int := -(2 ^ 63)

/-- `time.Since(t)` for a time `t` without monotonic reading, i.e. `time.Now().Sub(t)`:
the difference, saturated to the range of `time.Duration`. -/
def timeSince (now t : Int) : Int :=
  if now - t > maxDuration then maxDuration
  else if now - t < minDuration then minDuration
  else now - t

/-- `cache.GetCachePath` (cache.go, lines 19-25): fails exactly when `os.UserCacheDir` does;
otherwise it names the one cache slot. -/
def GetCachePath (w : World) : Except Error Unit :=
  match w.cacheDirErr with
  | some e => .error e
  | none => .ok ()

/-- `cache.Save` (cache.go, lines 27-43): the world after the call and the returned error
(`none` is Go's `nil`). -/
def Save (C : Codec) (repos : RepoSlice) (w : World) : World × Option Error :=
  match GetCachePath w with
  | .error e => (w, some e)
  | .ok _ =>
    match w.mkdirErr with
    | some e => (w, some e)
    | none =>
      match C.Marshal repos with
      | .error e => (w, some e)
      | .ok data =>
        match w.writeErr with
        | some (e, left) => ({ w with slot := left }, some e)
        | none =>
          ({ w with slot := some { modTime := w.now, data := data, readErr := none } }, none)

/-- `cache.Load` (cache.go, lines 45-71). `.error e` stands for the Go result `(nil, e)`,
`.ok repos` for `(repos, nil)`. -/
def Load (C : Codec) (w : World) : Except Error RepoSlice :=
  match GetCachePath w with
  | .error e => .error e
  | .ok _ =>
    match w.slot with
    | none => .error w.statErr
    | some f =>
      if timeSince w.now f.modTime > CacheTTL then .error Error.cacheExpired
      else
        match f.readErr with
        | some e => .error e
        | none =>
          match C.Unmarshal f.data with
          | .error e => .error e
          | .ok repos => .ok repos

/-! ## internal/gh/gh.go -/

/-- `gh.FetchRepos` (gh.go, lines 15-32): runs `gh repo list ... --limit <limit>` and decodes
its output. `allowCache` is ignored, as in the source. -/
def FetchRepos (C : Codec) (limit : Nat) (_allowCache : Bool) (w : World) :
    Except Error RepoSlice :=
  match w.ghList limit with
  | .error e => .error (Error.fetchFailed e)
  | .ok output =>
    match C.Unmarshal output with
    | .error e => .error (Error.parseFailed e)
    | .ok repos => .ok repos

/-! ## Bubble Tea vocabulary -/

/-- A `tea.Msg`: a key press (with the value of `msg.String()`), a window size, or any
other message. -/
inductive Msg where
  | key (name : String) : Msg
  | windowSize (width height : Int) : Msg
  | other (tag : Nat) : Msg
  deriving DecidableEq, Repr

/-- A `tea.Cmd`: `nil`, a command that delivers the quit message (`tea.Quit`), or any
other command. -/
inductive Cmd where
  | none : Cmd
  | quit : Cmd
  | other (tag : Nat) : Cmd
  deriving DecidableEq, Repr

/-- The struct `item` (tui.go, lines 17-19). -/
structure item where
  repo : Repository
  deriving DecidableEq, Repr

/-- `item.Title` (tui.go, line 21). -/
def item.Title (i : item) : GoString := i.repo.NameWithOwner

/-- `item.Description` (tui.go, line 22). -/
def item.Description (i : item) : GoString := i.repo.Description

/-- `item.FilterValue` (tui.go, line 23). -/
def item.FilterValue (i : item) : GoString := i.repo.NameWithOwner

/-- The struct `Action` (actions.go, lines 11-15). -/
structure Action where
  ID : String
  Label : String
  Info : String
  deriving DecidableEq, Repr

/-- `Action.Title` (actions.go, line 17). -/
def Action.Title (a : Action) : String := a.Label

/-- `Action.Description` (actions.go, line 18). -/
def Action.Description (a : Action) : String := a.Info

/-- `Action.FilterValue` (actions.go, line 19). -/
def Action.FilterValue (a : Action) : String := a.Label

/-- A non-nil `list.Item`: the interface value with its dynamic type. -/
inductive Item where
  | repo (i : item) : Item
  | action (a : Action) : Item
  deriving DecidableEq, Repr

/-- The type assertion `x.(item)` on an interface value (`none` is the nil interface). -/
def asItem : Option Item → Option item
  | some (Item.repo i) => some i
  | _ => none

/-- The type assertion `x.(Action)` on an interface value. -/
def asAction : Option Item → Option Action
  | some (Item.action a) => some a
  | _ => none

/-- The list component `bubbles/list` as the program uses it. -/
structure ListEngine where
  /-- `list.Model` -/
  Model : Type
  /-- `list.New(items, delegate, 0, 0)` -/
  New : List Item → Model
  /-- `Model.Update` -/
  Update : Model → Msg → Model × Cmd
  /-- `Model.SelectedItem` (`none` is the nil interface) -/
  SelectedItem : Model → Option Item
  /-- `Model.SetSize` -/
  SetSize : Model → Int → Int → Model
  /-- `Model.Items` -/
  Items : Model → List Item

/-- The contract of the list component that the action catalogue relies on: the item
set is the one the list was built from and no update changes it, and the selected item
is one of the items. -/
structure ListEngine.Lawful (E : ListEngine) : Prop where
  items_New : ∀ xs, E.Items (E.New xs) = xs
  items_Update : ∀ m msg, E.Items (E.Update m msg).1 = E.Items m
  items_SetSize : ∀ m w h, E.Items (E.SetSize m w h) = E.Items m
  selected_mem : ∀ m i, E.SelectedItem m = some i → i ∈ E.Items m

/-- `docStyle.GetFrameSize()` for `docStyle = lipgloss.NewStyle().Margin(1, 2)` (tui.go,
line 15): horizontal frame 2 + 2, vertical frame 1 + 1. -/
def docFrameSize : Int × Int := (4, 2)

/-- What the terminal delivers to one run of a `tea.Program`: the messages in arrival
order, and the error `Run` ends with, if it fails. -/
structure Session where
  msgs : List Msg
  runErr : Option Error

/-- How a call that waits for the terminal ends: it is still waiting when the messages
run out, it fails, or it returns. -/
inductive Outcome (α : Type) where
  | waiting : Outcome α
  | failed (e : Error) : Outcome α
  | done (a : α) : Outcome α
  deriving DecidableEq, Repr

/-- The event loop of `tea.Program`: messages go to `update` in arrival order; the loop
ends with the step whose command is the quit command. `none`: the messages ran out first. -/
def runLoop {M : Type} (update : M → Msg → M × Cmd) : M → List Msg → Option M
  | _, [] => none
  | m, msg :: rest =>
    match update m msg with
    | (m', Cmd.quit) => some m'
    | (m', _) => runLoop update m' rest

/-- `tea.NewProgram(m, ...).Run()`: the final model, or the error. -/
def programRun {M : Type} (update : M → Msg → M × Cmd) (m : M) (s : Session) : Outcome M :=
  match s.runErr with
  | some e => Outcome.failed e
  | none =>
    match runLoop update m s.msgs with
    | none => Outcome.waiting
    | some final => Outcome.done final

/-! ## internal/tui/tui.go: the repository phase -/

/-- `Style.Render` of the four lipgloss styles of styles.go that `Render` applies. -/
structure Styles where
  /-- `StyleTagPublic.Render` -/
  TagPublic : GoString → GoString
  /-- `StyleTagPrivate.Render` -/
  TagPrivate : GoString → GoString
  /-- `StyleSelectedItem.Render` -/
  SelectedItem : GoString → GoString
  /-- `StyleDimText.Render` -/
  DimText : GoString → GoString

/-- The verb `%-40s` of `fmt.Sprintf` at width `width`: the operand, then
`width - utf8.RuneCountInString(operand)` spaces when that is positive (`fmt.padString`
with the minus flag). -/
def padRight (width : Nat) (s : GoString) : GoString :=
  s ++ List.replicate (width - RuneCountInString s) 32

/-- Lines 47-50 of `itemDelegate.Render`: `desc` as it goes into the row
(`len(desc)` is the length in bytes, `desc[:47]` the first 47 bytes). -/
def shownDescription (desc : GoString) : GoString :=
  if desc.length > 50 then desc.take 47 ++ lit "..." else desc

/-- `itemDelegate.Render` (tui.go, lines 30-61): the bytes written to `w`. `cursor` is
`m.Index()`. -/
def itemDelegate.Render (S : Styles) (cursor : Int) (index : Int) (listItem : Option Item) :
    GoString :=
  match asItem listItem with
  | none => []
  | some i =>
    let privacy := if i.repo.IsPrivate then lit "🔒" else lit "🌐"
    let tag := if i.repo.IsPrivate then S.TagPrivate (lit "PRIVATE") else S.TagPublic (lit "PUBLIC")
    let title := i.Title
    let desc := shownDescription i.Description
    if index = cursor then
      S.SelectedItem
        (privacy ++ lit " " ++ padRight 40 title ++ lit " " ++ tag ++ lit "\n   " ++ S.DimText desc)
    else
      lit "  " ++ privacy ++ lit " " ++ padRight 40 title ++ lit " " ++ tag ++ lit "\n     "
        ++ S.DimText desc

/-- Styles that add nothing to the text: a stand-in for a terminal without colours. -/
def plainStyles : Styles :=
  { TagPublic := id, TagPrivate := id, SelectedItem := id, DimText := id }

/-- The struct `model` (tui.go, lines 63-67); `selected = none` is the nil pointer. -/
structure model (E : ListEngine) where
  list : E.Model
  selected : Option item
  err : Option Error

/-- `model.Update` (tui.go, lines 73-93). -/
def model.Update (E : ListEngine) (m : model E) (msg : Msg) : model E × Cmd :=
  let forward (m : model E) : model E × Cmd :=
    let r := E.Update m.list msg
    ({ m with list := r.1 }, r.2)
  match msg with
  | Msg.key name =>
    if name = "ctrl+c" ∨ name = "q" then (m, Cmd.quit)
    else if name = "enter" then
      match asItem (E.SelectedItem m.list) with
      | some i => ({ m with selected := some i }, Cmd.quit)
      | none => forward m
    else forward m
  | Msg.windowSize width height =>
    forward { m with list := E.SetSize m.list (width - docFrameSize.1) (height - docFrameSize.2) }
  | Msg.other _ => forward m

/-- A call `Start` makes to the cache store or to the fetcher. -/
inductive Call where
  | Load : Call
  | FetchRepos (limit : Nat) (allowCache : Bool) : Call
  | Save (repos : RepoSlice) : Call
  deriving DecidableEq, Repr

/-- The state of `Start` when it reaches line 115, or the error it returned at line 110. -/
structure Provided where
  /-- the world after the calls -/
  world : World
  /-- the calls made, in order -/
  calls : List Call
  /-- `.ok repos`: the dataset in `repos` at line 115; `.error e`: `return nil, e` at line 110 -/
  result : Except Error RepoSlice

/-- Lines 100-113 of `Start` (tui.go): the dataset comes from the cache or from a fetch. -/
def provideRepos (C : Codec) (noCache : Bool) (w : World) : Provided :=
  -- var repos []gh.Repository; if !noCache { repos, err = cache.Load() }
  let loaded : RepoSlice × List Call :=
    if noCache then (RepoSlice.nil, [])
    else
      match Load C w with
      | .ok repos => (repos, [Call.Load])
      | .error _ => (RepoSlice.nil, [Call.Load])
  if loaded.1.isNil then
    match FetchRepos C 1000 false w with
    | .error e =>
      { world := w, calls := loaded.2 ++ [Call.FetchRepos 1000 false], result := .error e }
    | .ok repos =>
      { world := (Save C repos w).1,
        calls := loaded.2 ++ [Call.FetchRepos 1000 false, Call.Save repos],
        result := .ok repos }
  else
    { world := w, calls := loaded.2, result := .ok loaded.1 }

/-- Lines 115-118 of `Start`: one list item per repository, in order. -/
def repoItems (repos : RepoSlice) : List Item :=
  repos.toList.map (fun repo => Item.repo { repo := repo })

/-- What a run of `Start` did and returned. -/
structure Started where
  world : World
  calls : List Call
  /-- the list items handed to `list.New`, when the UI was reached -/
  items : Option (List Item)
  /-- the Go result: `.failed e` is `(nil, e)`, `.done none` is `(nil, nil)`,
  `.done (some r)` is `(&r, nil)` -/
  result : Outcome (Option Repository)

/-- `tui.Start` (tui.go, lines 99-138). -/
def Start (C : Codec) (E : ListEngine) (noCache : Bool) (w : World) (s : Session) : Started :=
  let p := provideRepos C noCache w
  match p.result with
  | .error e => { world := p.world, calls := p.calls, items := none, result := Outcome.failed e }
  | .ok repos =>
    let items := repoItems repos
    let m : model E := { list := E.New items, selected := none, err := none }
    let result : Outcome (Option Repository) :=
      match programRun (model.Update E) m s with
      | Outcome.waiting => Outcome.waiting
      | Outcome.failed e => Outcome.failed e
      | Outcome.done final =>
        match final.selected with
        | some i => Outcome.done (some i.repo)
        | none => Outcome.done none
    { world := p.world, calls := p.calls, items := some items, result := result }

/-! ## internal/tui/actions.go: the action phase -/

/-- The struct `actionModel` (actions.go, lines 21-25). -/
structure actionModel (E : ListEngine) where
  list : E.Model
  selected : String
  repo : Repository

/-- `actionModel.Update` (actions.go, lines 31-51). -/
def actionModel.Update (E : ListEngine) (m : actionModel E) (msg : Msg) :
    actionModel E × Cmd :=
  let forward (m : actionModel E) : actionModel E × Cmd :=
    let r := E.Update m.list msg
    ({ m with list := r.1 }, r.2)
  match msg with
  | Msg.key name =>
    if name = "ctrl+c" ∨ name = "q" then (m, Cmd.quit)
    else if name = "enter" then
      match asAction (E.SelectedItem m.list) with
      | some a => ({ m with selected := a.ID }, Cmd.quit)
      | none => forward m
    else forward m
  | Msg.windowSize width height =>
    forward { m with list := E.SetSize m.list (width - docFrameSize.1) (height - docFrameSize.2) }
  | Msg.other _ => forward m

/-- The action catalogue of `SelectAction` (actions.go, lines 58-64). -/
def actions : List Item :=
  [ Item.action { ID := "clone", Label := "Clone", Info := "Clone repository to current directory" },
    Item.action { ID := "copy-name", Label := "Copy Name", Info := "Copy owner/repo to clipboard" },
    Item.action { ID := "copy-url", Label := "Copy URL", Info := "Copy full GitHub URL to clipboard" },
    Item.action { ID := "open", Label := "Open", Info := "Open in default browser" },
    Item.action { ID := "print", Label := "Print", Info := "Print name and exit" } ]

/-- `tui.SelectAction` (actions.go, lines 57-84): `.failed e` is `("", e)`,
`.done id` is `(id, nil)`. -/
def SelectAction (E : ListEngine) (repo : Repository) (s : Session) : Outcome String :=
  let m : actionModel E := { list := E.New actions, selected := "", repo := repo }
  match programRun (actionModel.Update E) m s with
  | Outcome.waiting => Outcome.waiting
  | Outcome.failed e => Outcome.failed e
  | Outcome.done final => Outcome.done final.selected

/-! ## cmd/gh-select/main.go -/

/-- What `rootCmd.Run` does to the outside, in order. -/
inductive Effect where
  /-- text written to standard output -/
  | stdout (text : GoString) : Effect
  /-- `fmt.Println("Error:", err)` -/
  | stdoutError (e : Error) : Effect
  /-- `fmt.Printf("Failed to copy to clipboard: %v\n", err)` -/
  | stdoutCopyFailed (e : Error) : Effect
  /-- `os.Exit(code)` -/
  | exit (code : Nat) : Effect
  /-- the call `tui.SelectAction(repo)` -/
  | selectAction (repo : Repository) : Effect
  /-- `exec.Command(argv...).Run()` -/
  | run (argv : List GoString) : Effect
  /-- `clipboard.WriteAll(text)` -/
  | clipboard (text : GoString) : Effect
  deriving DecidableEq, Repr

/-- The cases of `switch action` (main.go, lines 39-69). -/
inductive Branch where
  | clone : Branch
  | copyName : Branch
  | copyUrl : Branch
  | open : Branch
  | print : Branch
  | noAction : Branch
  | invalid : Branch
  deriving DecidableEq, Repr

/-- Which case of `switch action` is taken (main.go, lines 39-69); `invalid` is `default`. -/
def switchCase (action : String) : Branch :=
  if action = "clone" then Branch.clone
  else if action = "copy-name" then Branch.copyName
  else if action = "copy-url" then Branch.copyUrl
  else if action = "open" then Branch.open
  else if action = "print" then Branch.print
  else if action = "" then Branch.noAction
  else Branch.invalid

/-- The body of each case of `switch action` (main.go, lines 40-68). -/
def runBranch (w : World) (repo : Repository) : Branch → List Effect
  | Branch.clone =>
    [ Effect.stdout (lit "\nCloning " ++ repo.NameWithOwner ++ lit "...\n"),
      Effect.run [lit "gh", lit "repo", lit "clone", repo.NameWithOwner] ]
  | Branch.copyName =>
    match w.clipboardErr with
    | some e => [Effect.clipboard repo.NameWithOwner, Effect.stdoutCopyFailed e]
    | none =>
      [ Effect.clipboard repo.NameWithOwner,
        Effect.stdout (lit "\nCopied " ++ repo.NameWithOwner ++ lit " to clipboard!\n") ]
  | Branch.copyUrl =>
    let url := lit "https://github.com/" ++ repo.NameWithOwner
    match w.clipboardErr with
    | some e => [Effect.clipboard url, Effect.stdoutCopyFailed e]
    | none => [Effect.clipboard url, Effect.stdout (lit "\nCopied " ++ url ++ lit " to clipboard!\n")]
  | Branch.open =>
    [ Effect.stdout (lit "\nOpening in browser...\n"),
      Effect.run [lit "gh", lit "repo", lit "view", repo.NameWithOwner, lit "--web"] ]
  | Branch.print => [Effect.stdout (repo.NameWithOwner ++ lit "\n")]
  | Branch.noAction => [Effect.stdout (lit "No action selected\n")]
  | Branch.invalid => [Effect.stdout (lit "Invalid choice\n")]

/-- A run of `rootCmd.Run`. -/
structure Ran where
  /-- what `tui.Start` did and returned -/
  started : Started
  /-- the effects of `rootCmd.Run` itself, in order -/
  effects : List Effect
  /-- the case of `switch action` that ran, when the switch was reached -/
  branch : Option Branch
  /-- `false` while a phase still waits for the terminal -/
  returned : Bool

/-- `rootCmd.Run` (main.go, lines 21-70). `noCache` is the variable bound to the flag
`--no-cache` / `-n` (default `false`) by `init` (main.go, lines 81-83). -/
def rootCmdRun (C : Codec) (E : ListEngine) (noCache : Bool) (w : World)
    (repoPhase actionPhase : Session) : Ran :=
  let st := Start C E noCache w repoPhase
  match st.result with
  | Outcome.waiting => { started := st, effects := [], branch := none, returned := false }
  | Outcome.failed e =>
    { started := st, effects := [Effect.stdoutError e, Effect.exit 1], branch := none,
      returned := true }
  | Outcome.done none =>
    { started := st, effects := [Effect.stdout (lit "No repository selected\n")],
      branch := none, returned := true }
  | Outcome.done (some repo) =>
    match SelectAction E repo actionPhase with
    | Outcome.waiting =>
      { started := st, effects := [Effect.selectAction repo], branch := none, returned := false }
    | Outcome.failed e =>
      { started := st,
        effects := [Effect.selectAction repo, Effect.stdoutError e, Effect.exit 1],
        branch := none, returned := true }
    | Outcome.done action =>
      { started := st,
        effects := Effect.selectAction repo :: runBranch st.world repo (switchCase action),
        branch := some (switchCase action), returned := true }

/-! ## A concrete list component

A small list in the manner of `bubbles/list`: three filter states, a fuzzy
(subsequence, case-folding) filter applied as the text changes, a clamped cursor, and
the default key map for quitting (`ctrl+c` always; `q` and `esc` while browsing). It has
no pagination. Concrete runs of the program are evaluated over it. -/

/-- The filter states of the list. -/
inductive FilterState where
  | Unfiltered : FilterState
  | Filtering : FilterState
  | FilterApplied : FilterState
  deriving DecidableEq, Repr

/-- `FilterValue()` of a list item. -/
def Item.FilterValue : Item → GoString
  | Item.repo i => i.FilterValue
  | Item.action a => lit a.FilterValue

/-- ASCII case folding. -/
def foldByte (b : Nat) : Nat := if 65 ≤ b ∧ b ≤ 90 then b + 32 else b

/-- Fuzzy match: the pattern occurs in the target as a subsequence, letter case ignored. -/
def fuzzyMatch : GoString → GoString → Bool
  | [], _ => true
  | _ :: _, [] => false
  | p :: ps, t :: ts =>
    if foldByte p = foldByte t then fuzzyMatch ps ts else fuzzyMatch (p :: ps) ts

/-- State of the concrete list. -/
structure BasicList where
  items : List Item
  filterState : FilterState
  /-- the runes typed into the filter input -/
  filterRunes : List Nat
  cursor : Nat
  width : Int
  height : Int
  deriving DecidableEq, Repr

/-- The items shown: all of them, or those matching the filter text. -/
def BasicList.VisibleItems (m : BasicList) : List Item :=
  if m.filterState = FilterState.Unfiltered then m.items
  else m.items.filter (fun i => fuzzyMatch (m.filterRunes.flatMap EncodeRune) i.FilterValue)

/-- The highlighted item; `none` when the cursor is past the shown items. -/
def BasicList.SelectedItem (m : BasicList) : Option Item := m.VisibleItems.get? m.cursor

/-- Back to the unfiltered list. -/
def BasicList.resetFiltering (m : BasicList) : BasicList :=
  { m with filterState := FilterState.Unfiltered, filterRunes := [], cursor := 0 }

/-- Key handling of the concrete list. -/
def BasicList.Update (m : BasicList) : Msg → BasicList × Cmd
  | Msg.key name =>
    if name = "ctrl+c" then (m, Cmd.quit)
    else if m.filterState = FilterState.Filtering then
      if name = "esc" then (m.resetFiltering, Cmd.none)
      else if name = "enter" then
        if m.VisibleItems.isEmpty ∨ m.filterRunes.isEmpty then (m.resetFiltering, Cmd.none)
        else ({ m with filterState := FilterState.FilterApplied }, Cmd.none)
      else if name = "backspace" then
        ({ m with filterRunes := m.filterRunes.dropLast, cursor := 0 }, Cmd.none)
      else
        match name.toList with
        | [c] => ({ m with filterRunes := m.filterRunes ++ [c.toNat], cursor := 0 }, Cmd.none)
        | _ => (m, Cmd.none)
    else if name = "esc" then
      if m.filterState = FilterState.FilterApplied then (m.resetFiltering, Cmd.none)
      else (m, Cmd.quit)
    else if name = "q" then (m, Cmd.quit)
    else if name = "up" ∨ name = "k" then ({ m with cursor := m.cursor - 1 }, Cmd.none)
    else if name = "down" ∨ name = "j" then
      ({ m with cursor := min (m.cursor + 1) (m.VisibleItems.length - 1) }, Cmd.none)
    else if name = "/" then
      ({ m with filterState := FilterState.Filtering, filterRunes := [], cursor := 0 }, Cmd.none)
    else (m, Cmd.none)
  | _ => (m, Cmd.none)

/-- The concrete list as a list component. -/
def basicList : ListEngine :=
  { Model := BasicList
    New := fun xs =>
      { items := xs, filterState := FilterState.Unfiltered, filterRunes := [], cursor := 0,
        width := 0, height := 0 }
    Update := BasicList.Update
    SelectedItem := BasicList.SelectedItem
    SetSize := fun m w h => { m with width := w, height := h }
    Items := fun m => m.items }

/-- The call is a call to `gh.FetchRepos`. -/
def Call.isFetch : Call → Bool
  | Call.FetchRepos _ _ => true
  | _ => false

/-- The call is a call to `cache.Save`. -/
def Call.isSave : Call → Bool
  | Call.Save _ => true
  | _ => false

/-- The identifiers of the action catalogue, in order. -/
def actionIDs : List String := actions.filterMap (fun i => (asAction (some i)).map Action.ID)

/-! ## Concrete inputs for evaluating the definitions -/

/-- The dataset of the spec's end-to-end scenario A. -/
def demoRepos : List Repository :=
  [ { NameWithOwner := lit "acme/api", Description := [], IsPrivate := false },
    { NameWithOwner := lit "acme/web", Description := lit "frontend app", IsPrivate := true } ]

/-- A world with an empty cache slot in which every call succeeds and `gh repo list`
prints the two repositories of `demoRepos`. -/
def demoWorld : World :=
  { now := 0, cacheDirErr := none, slot := none, statErr := Error.os 2, mkdirErr := none,
    writeErr := none, ghList := fun _ => .ok (jsonMarshal (RepoSlice.slice demoRepos)),
    clipboardErr := none }

/-- The demo world with a cache file holding `data`, written at time 0, read at time `now`. -/
def cachedWorld (data : GoString) (now : Int) : World :=
  { demoWorld with now := now, slot := some { modTime := 0, data := data, readErr := none } }

/-! ## Theorems: cache expiry -/

theorem timeSince_gt_ttl (now t : Int) : timeSince now t > CacheTTL ↔ now - t > CacheTTL := by
  unfold timeSince CacheTTL Minute maxDuration minDuration
  split_ifs <;> constructor <;> intro h <;> omega

/-- C1: for a cache file that exists, can be read and holds a parseable payload, and for
every elapsed time `e = now - modTime`, `Load` returns the dataset iff `e ≤ CacheTTL`
(30 minutes); when `e > CacheTTL` it fails with the "cache expired" error, hence returns
no dataset.  At `e = CacheTTL` exactly the entry is valid, at `e = CacheTTL + 1` it is
expired. -/
theorem load_valid_iff_within_ttl (C : Codec) (w : World) (f : CacheFile) (repos : RepoSlice)
    (hpath : w.cacheDirErr = none) (hfile : w.slot = some f) (hread : f.readErr = none)
    (hparse : C.Unmarshal f.data = .ok repos) :
    (Load C w = .ok repos ↔ w.now - f.modTime ≤ CacheTTL) ∧
    (w.now - f.modTime > CacheTTL → Load C w = .error Error.cacheExpired) ∧
    (∀ r, w.now - f.modTime > CacheTTL → Load C w ≠ .ok r) ∧
    (w.now - f.modTime = 30 * Minute → Load C w = .ok repos) ∧
    (w.now - f.modTime = 30 * Minute + 1 → Load C w = .error Error.cacheExpired) := by
  have hexp : w.now - f.modTime > CacheTTL → Load C w = .error Error.cacheExpired := by
    intro h
    simp [Load, GetCachePath, hpath, hfile, (timeSince_gt_ttl w.now f.modTime).2 h]
  have hval : w.now - f.modTime ≤ CacheTTL → Load C w = .ok repos := by
    intro h
    have h' : ¬ timeSince w.now f.modTime > CacheTTL := by
      rw [timeSince_gt_ttl]; omega
    simp [Load, GetCachePath, hpath, hfile, h', hread, hparse]
  refine ⟨⟨?_, hval⟩, hexp, ?_, ?_, ?_⟩
  · intro h
    by_contra hc
    rw [hexp (by omega)] at h
    cases h
  · intro r h hr
    rw [hexp h] at hr
    cases hr
  · intro h
    exact hval (by unfold CacheTTL; omega)
  · intro h
    exact hexp (by unfold CacheTTL; omega)


/-! ## Theorems: data provision in `Start` -/

/-- C4: with `noCache = true`, whatever the cache slot holds, `Start` never calls
`cache.Load`, calls `gh.FetchRepos` exactly once, and when the fetch succeeds calls
`cache.Save` with exactly the fetched dataset, which is also the dataset displayed. -/
theorem start_no_cache_fetches_once (C : Codec) (E : ListEngine) (w : World) (s : Session) :
    Call.Load ∉ (Start C E true w s).calls ∧
    (Start C E true w s).calls.filter Call.isFetch = [Call.FetchRepos 1000 false] ∧
    (∀ repos, FetchRepos C 1000 false w = .ok repos →
      (Start C E true w s).calls = [Call.FetchRepos 1000 false, Call.Save repos] ∧
      (Start C E true w s).items = some (repoItems repos) ∧
      (Start C E true w s).world = (Save C repos w).1) := by
  cases h : FetchRepos C 1000 false w with
  | error e => simp [Start, provideRepos, RepoSlice.isNil, h, Call.isFetch]
  | ok repos => simp [Start, provideRepos, RepoSlice.isNil, h, Call.isFetch]

theorem load_expired (C : Codec) (w : World) (f : CacheFile) (hpath : w.cacheDirErr = none)
    (hfile : w.slot = some f) (hold : w.now - f.modTime > CacheTTL) :
    Load C w = .error Error.cacheExpired := by
  simp [Load, GetCachePath, hpath, hfile, (timeSince_gt_ttl w.now f.modTime).2 hold]

theorem provideRepos_save_oracles (C : Codec) (noCache : Bool) (w : World)
    (me : Option Error) (we : Option (Error × Option CacheFile)) :
    (provideRepos C noCache { w with mkdirErr := me, writeErr := we }).result
      = (provideRepos C noCache w).result := by
  have hL : Load C { w with mkdirErr := me, writeErr := we } = Load C w := rfl
  have hF : FetchRepos C 1000 false { w with mkdirErr := me, writeErr := we }
      = FetchRepos C 1000 false w := rfl
  unfold provideRepos
  rw [hL, hF]
  cases noCache <;> cases Load C w <;> cases FetchRepos C 1000 false w <;>
    simp <;> split <;> simp_all

/-- C5: in the data-provision phase of `Start`, an error is returned iff
`gh.FetchRepos` was attempted and failed (and it is that error). Every failure of
`cache.Load` is non-fatal: it is followed by exactly one fetch attempt, whose result is
the phase's result; an entry stored 45 minutes ago is such a failure. Whether `cache.Save`
fails changes neither the dataset nor the result of `Start`. A fetch failure is returned
to the caller with no repository, no list and no further call. -/
theorem provide_error_iff_fetch_failed (C : Codec) (E : ListEngine) (noCache : Bool)
    (w : World) (s : Session) :
    (∀ e, (provideRepos C noCache w).result = .error e ↔
      (Call.FetchRepos 1000 false ∈ (provideRepos C noCache w).calls ∧
        FetchRepos C 1000 false w = .error e)) ∧
    (∀ e, Load C w = .error e →
      (provideRepos C false w).calls.filter Call.isFetch = [Call.FetchRepos 1000 false] ∧
      (provideRepos C false w).calls.take 2 = [Call.Load, Call.FetchRepos 1000 false] ∧
      (provideRepos C false w).result = FetchRepos C 1000 false w) ∧
    (∀ f, w.cacheDirErr = none → w.slot = some f → w.now - f.modTime = 45 * Minute →
      Load C w = .error Error.cacheExpired) ∧
    (∀ me we,
      (Start C E noCache { w with mkdirErr := me, writeErr := we } s).result
        = (Start C E noCache w s).result ∧
      (Start C E noCache { w with mkdirErr := me, writeErr := we } s).items
        = (Start C E noCache w s).items) ∧
    (∀ e, (provideRepos C noCache w).result = .error e →
      (Start C E noCache w s).result = Outcome.failed e ∧
      (Start C E noCache w s).items = none ∧
      (Start C E noCache w s).world = w ∧
      (Start C E noCache w s).calls.filter Call.isSave = []) := by
  refine ⟨?_, ?_, ?_, ?_, ?_⟩
  · intro e
    unfold provideRepos
    cases noCache <;> cases Load C w <;> cases hF : FetchRepos C 1000 false w <;>
      simp [RepoSlice.isNil] <;> (try split) <;> simp_all
  · intro e hL
    cases hF : FetchRepos C 1000 false w <;>
      simp [provideRepos, hL, hF, RepoSlice.isNil, Call.isFetch]
  · intro f hpath hfile hage
    exact load_expired C w f hpath hfile (by unfold CacheTTL; unfold Minute at *; omega)
  · intro me we
    have h := provideRepos_save_oracles C noCache w me we
    unfold Start
    simp only [h]
    cases (provideRepos C noCache w).result <;> simp
  · intro e he
    unfold Start
    simp only [he]
    refine ⟨trivial, trivial, ?_, ?_⟩
    · revert he
      unfold provideRepos
      cases noCache <;> cases Load C w <;> cases hF : FetchRepos C 1000 false w <;>
        simp [RepoSlice.isNil] <;> (try split) <;> simp_all
    · revert he
      unfold provideRepos
      cases noCache <;> cases Load C w <;> cases hF : FetchRepos C 1000 false w <;>
        simp [RepoSlice.isNil, Call.isSave] <;> (try split) <;> simp_all [Call.isSave]

/-! ## Theorems: the two `Update` functions and the event loop -/

theorem runLoop_cons {M : Type} (update : M → Msg → M × Cmd) (m : M) (msg : Msg)
    (rest : List Msg) :
    runLoop update m (msg :: rest)
      = if (update m msg).2 = Cmd.quit then some (update m msg).1
        else runLoop update (update m msg).1 rest := by
  cases hu : update m msg with
  | mk m' c => cases c <;> simp [runLoop, hu]

theorem runLoop_append {M : Type} (update : M → Msg → M × Cmd) (before after : List Msg) (m : M)
    (h : runLoop update m before = none) :
    runLoop update m (before ++ after)
      = runLoop update (before.foldl (fun m msg => (update m msg).1) m) after := by
  induction before generalizing m with
  | nil => rfl
  | cons msg rest ih =>
    rw [runLoop_cons] at h
    rw [List.cons_append, runLoop_cons, List.foldl_cons]
    by_cases hq : (update m msg).2 = Cmd.quit
    · simp [hq] at h
    · simp only [hq, if_false] at h ⊢
      exact ih _ h

theorem runLoop_invariant {M : Type} (update : M → Msg → M × Cmd) (P : M → Prop)
    (hstep : ∀ m msg, P m → P (update m msg).1) (msgs : List Msg) (m final : M)
    (hm : P m) (hrun : runLoop update m msgs = some final) : P final := by
  induction msgs generalizing m with
  | nil => cases hrun
  | cons msg rest ih =>
    rw [runLoop_cons] at hrun
    have h1 := hstep m msg hm
    by_cases hq : (update m msg).2 = Cmd.quit
    · simp only [hq, if_true, Option.some.injEq] at hrun
      rw [← hrun]
      exact h1
    · simp only [hq, if_false] at hrun
      exact ih _ h1 hrun

/-- Along a prefix of messages that does not end the loop, a property kept by every
non-quitting step is kept. -/
theorem foldl_invariant_of_running {M : Type} (update : M → Msg → M × Cmd) (P : M → Prop)
    (hstep : ∀ m msg, P m → (update m msg).2 ≠ Cmd.quit → P (update m msg).1)
    (msgs : List Msg) (m : M) (hm : P m) (hrun : runLoop update m msgs = none) :
    P (msgs.foldl (fun m msg => (update m msg).1) m) := by
  induction msgs generalizing m with
  | nil => exact hm
  | cons msg rest ih =>
    rw [runLoop_cons] at hrun
    rw [List.foldl_cons]
    by_cases hq : (update m msg).2 = Cmd.quit
    · simp [hq] at hrun
    · simp only [hq, if_false] at hrun
      exact ih _ (hstep m msg hm hq) hrun

theorem model_Update_cancel (E : ListEngine) (m : model E) (k : String)
    (hk : k = "q" ∨ k = "ctrl+c") : model.Update E m (Msg.key k) = (m, Cmd.quit) := by
  rcases hk with rfl | rfl <;> simp [model.Update]

theorem model_Update_selected (E : ListEngine) (m : model E) (msg : Msg)
    (hq : (model.Update E m msg).2 ≠ Cmd.quit) :
    (model.Update E m msg).1.selected = m.selected := by
  unfold model.Update at hq ⊢
  cases msg with
  | key name =>
    simp only at hq ⊢
    split_ifs at hq ⊢ with h1 h2
    · rfl
    · cases hs : asItem (E.SelectedItem m.list) with
      | none => rfl
      | some i => simp [hs] at hq
    · rfl
  | windowSize width height => rfl
  | other tag => rfl

/-- C9: in the repository phase a cancel key (`q` or `ctrl+c`) makes `model.Update`
return the quit command in that same step with the model unchanged, for every state of
the model; when it arrives while the loop is still running, `Start` returns `(nil, nil)`;
and whenever `Start` returns a nil repository without error the program prints
"No repository selected" and does not call `tui.SelectAction`. -/
theorem cancel_quits_repository_phase (C : Codec) (E : ListEngine) :
    (∀ (m : model E) (k : String), k = "q" ∨ k = "ctrl+c" →
      model.Update E m (Msg.key k) = (m, Cmd.quit)) ∧
    (∀ (noCache : Bool) (w : World) (repos : RepoSlice) (before after : List Msg) (k : String),
      k = "q" ∨ k = "ctrl+c" →
      (provideRepos C noCache w).result = .ok repos →
      runLoop (model.Update E)
        { list := E.New (repoItems repos), selected := none, err := none } before = none →
      (Start C E noCache w { msgs := before ++ Msg.key k :: after, runErr := none }).result
        = Outcome.done none) ∧
    (∀ (noCache : Bool) (w : World) (repoPhase actionPhase : Session),
      (Start C E noCache w repoPhase).result = Outcome.done none →
      (rootCmdRun C E noCache w repoPhase actionPhase).effects
        = [Effect.stdout (lit "No repository selected\n")] ∧
      (∀ r, Effect.selectAction r ∉ (rootCmdRun C E noCache w repoPhase actionPhase).effects) ∧
      (rootCmdRun C E noCache w repoPhase actionPhase).branch = none ∧
      (rootCmdRun C E noCache w repoPhase actionPhase).returned = true) := by
  refine ⟨model_Update_cancel E, ?_, ?_⟩
  · intro noCache w repos before after k hk hp hrun
    have hsel := foldl_invariant_of_running (model.Update E) (fun m => m.selected = none)
      (fun m msg hm hq => (model_Update_selected E m msg hq).trans hm) before _ rfl hrun
    unfold Start
    simp only [hp, programRun]
    rw [runLoop_append _ _ _ _ hrun, runLoop_cons, model_Update_cancel E _ k hk]
    simp only [if_true]
    rw [hsel]
  · intro noCache w repoPhase actionPhase h
    simp [rootCmdRun, h]

set_option maxRecDepth 100000 in
/-- C9 at a concrete run: an empty cache, two fetched repositories; the user moves
down and presses `q` (a later `enter` is never seen). -/
theorem cancel_quits_repository_phase_witness :
    (Start goJSON basicList false demoWorld
        { msgs := [Msg.key "down"] ++ Msg.key "q" :: [Msg.key "enter"], runErr := none }).result
      = Outcome.done none :=
  (cancel_quits_repository_phase goJSON basicList).2.1 false demoWorld
    (RepoSlice.slice demoRepos) [Msg.key "down"] [Msg.key "enter"] "q" (Or.inl rfl) rfl rfl

theorem asItem_eq_some (x : Option Item) (i : item) (h : asItem x = some i) :
    x = some (Item.repo i) := by
  unfold asItem at h
  split at h
  · cases h; rfl
  · cases h

theorem asAction_eq_some (x : Option Item) (a : Action) (h : asAction x = some a) :
    x = some (Item.action a) := by
  unfold asAction at h
  split at h
  · cases h; rfl
  · cases h

/-- C8 (amended): when no item is highlighted, an `enter` key neither selects nor fails:
`selected` and `err` keep their values, and the key is handed to the list component,
whose command is what `Update` returns (the `Update` functions add no quit command of
their own). When an item is highlighted, `enter` returns the quit command and `selected`
is exactly that item (its `ID` in the action phase). -/
theorem enter_confirms_only_highlighted (E : ListEngine) :
    (∀ (m : model E), E.SelectedItem m.list = none →
      model.Update E m (Msg.key "enter")
        = ({ m with list := (E.Update m.list (Msg.key "enter")).1 },
            (E.Update m.list (Msg.key "enter")).2)) ∧
    (∀ (m : actionModel E), E.SelectedItem m.list = none →
      actionModel.Update E m (Msg.key "enter")
        = ({ m with list := (E.Update m.list (Msg.key "enter")).1 },
            (E.Update m.list (Msg.key "enter")).2)) ∧
    (∀ (m : model E) (i : item), E.SelectedItem m.list = some (Item.repo i) →
      model.Update E m (Msg.key "enter") = ({ m with selected := some i }, Cmd.quit)) ∧
    (∀ (m : actionModel E) (a : Action), E.SelectedItem m.list = some (Item.action a) →
      actionModel.Update E m (Msg.key "enter") = ({ m with selected := a.ID }, Cmd.quit)) := by
  refine ⟨?_, ?_, ?_, ?_⟩
  · intro m h
    simp [model.Update, h, asItem]
  · intro m h
    simp [actionModel.Update, h, asAction]
  · intro m i h
    simp [model.Update, h, asItem]
  · intro m a h
    simp [actionModel.Update, h, asAction]

/-- C8 as stated fails: with no repository in the list (and in the action phase with a
filter that matches no action) nothing is highlighted, and `enter` does not return the
quit command: the loop keeps waiting for input. -/
theorem enter_on_empty_view_does_not_quit :
    basicList.SelectedItem (basicList.New []) = none ∧
    (model.Update basicList { list := basicList.New [], selected := none, err := none }
      (Msg.key "enter")).2 = Cmd.none ∧
    (runLoop (model.Update basicList)
      { list := basicList.New [], selected := none, err := none } [Msg.key "enter"]).isNone = true ∧
    basicList.SelectedItem
      { items := actions, filterState := FilterState.Filtering, filterRunes := [122], cursor := 0,
        width := 0, height := 0 } = none ∧
    (actionModel.Update basicList
      { list := { items := actions, filterState := FilterState.Filtering, filterRunes := [122],
                  cursor := 0, width := 0, height := 0 },
        selected := "", repo := ⟨lit "acme/web", [], false⟩ } (Msg.key "enter")).2 = Cmd.none := by
  decide

/-- C8 (amended) at concrete states: the empty repository list, and the highlighted
first action. -/
theorem enter_confirms_only_highlighted_witness :
    (model.Update basicList { list := basicList.New [], selected := none, err := none }
      (Msg.key "enter")).1.selected = none ∧
    (actionModel.Update basicList
      { list := basicList.New actions, selected := "", repo := ⟨lit "acme/web", [], false⟩ }
      (Msg.key "enter")).1.selected = "clone" :=
  ⟨congrArg (fun r => r.1.selected)
      ((enter_confirms_only_highlighted basicList).1
        { list := basicList.New [], selected := none, err := none } rfl),
   congrArg (fun r => r.1.selected)
      ((enter_confirms_only_highlighted basicList).2.2.2
        { list := basicList.New actions, selected := "", repo := ⟨lit "acme/web", [], false⟩ }
        { ID := "clone", Label := "Clone", Info := "Clone repository to current directory" } rfl)⟩

/-! ## Theorems: the action catalogue -/

theorem basicList_lawful : basicList.Lawful := by
  refine ⟨fun _ => rfl, ?_, fun _ _ _ => rfl, ?_⟩
  · intro m msg
    show (BasicList.Update m msg).1.items = m.items
    unfold BasicList.Update
    cases msg with
    | key name =>
      simp only
      split_ifs <;> first | rfl | (split <;> rfl)
    | windowSize _ _ => rfl
    | other _ => rfl
  · intro m i h
    have hmem : i ∈ m.VisibleItems := List.get?_mem h
    unfold BasicList.VisibleItems at hmem
    split_ifs at hmem
    · exact hmem
    · exact (List.mem_filter.1 hmem).1

theorem action_ID_mem (a : Action) (h : Item.action a ∈ actions) : a.ID ∈ actionIDs := by
  simp only [actions, List.mem_cons, Item.action.injEq, List.mem_singleton, List.not_mem_nil,
    or_false] at h
  rcases h with rfl | rfl | rfl | rfl | rfl <;> decide

theorem actionModel_Update_invariant (E : ListEngine) (hE : E.Lawful) (m : actionModel E)
    (msg : Msg)
    (hm : E.Items m.list = actions ∧ (m.selected ∈ actionIDs ∨ m.selected = "")) :
    E.Items (actionModel.Update E m msg).1.list = actions ∧
      ((actionModel.Update E m msg).1.selected ∈ actionIDs ∨
        (actionModel.Update E m msg).1.selected = "") := by
  unfold actionModel.Update
  cases msg with
  | key name =>
    simp only
    split_ifs with h1 h2
    · exact hm
    · cases hs : asAction (E.SelectedItem m.list) with
      | none => exact ⟨(hE.items_Update _ _).trans hm.1, hm.2⟩
      | some a =>
        refine ⟨hm.1, Or.inl ?_⟩
        have hmem := hE.selected_mem _ _ (asAction_eq_some _ _ hs)
        rw [hm.1] at hmem
        exact action_ID_mem a hmem
    · exact ⟨(hE.items_Update _ _).trans hm.1, hm.2⟩
  | windowSize width height =>
    exact ⟨(hE.items_Update _ _).trans ((hE.items_SetSize _ _ _).trans hm.1), hm.2⟩
  | other tag => exact ⟨(hE.items_Update _ _).trans hm.1, hm.2⟩

theorem SelectAction_closed (E : ListEngine) (hE : E.Lawful) (repo : Repository) (s : Session)
    (id : String) (h : SelectAction E repo s = Outcome.done id) : id ∈ actionIDs ∨ id = "" := by
  unfold SelectAction programRun at h
  cases hr : s.runErr with
  | some e => simp [hr] at h
  | none =>
    simp only [hr] at h
    cases hl : runLoop (actionModel.Update E)
        { list := E.New actions, selected := "", repo := repo } s.msgs with
    | none => simp [hl] at h
    | some final =>
      simp only [hl, Outcome.done.injEq] at h
      have hinv := runLoop_invariant (actionModel.Update E)
        (fun m => E.Items m.list = actions ∧ (m.selected ∈ actionIDs ∨ m.selected = ""))
        (fun m msg hm => actionModel_Update_invariant E hE m msg hm) s.msgs _ final
        ⟨hE.items_New _, Or.inr rfl⟩ hl
      rw [← h]
      exact hinv.2

theorem switchCase_known (id : String) (h : id ∈ actionIDs ∨ id = "") :
    switchCase id ≠ Branch.invalid := by
  have hids : actionIDs = ["clone", "copy-name", "copy-url", "open", "print"] := by decide
  rw [hids] at h
  simp only [List.mem_cons, List.mem_singleton, List.not_mem_nil, or_false] at h
  rcases h with (rfl | rfl | rfl | rfl | rfl) | rfl <;> decide

theorem actionModel_Update_cancel (E : ListEngine) (m : actionModel E) (k : String)
    (hk : k = "q" ∨ k = "ctrl+c") : actionModel.Update E m (Msg.key k) = (m, Cmd.quit) := by
  rcases hk with rfl | rfl <;> simp [actionModel.Update]

theorem actionModel_Update_selected (E : ListEngine) (m : actionModel E) (msg : Msg)
    (hq : (actionModel.Update E m msg).2 ≠ Cmd.quit) :
    (actionModel.Update E m msg).1.selected = m.selected := by
  unfold actionModel.Update at hq ⊢
  cases msg with
  | key name =>
    simp only at hq ⊢
    split_ifs at hq ⊢ with h1 h2
    · rfl
    · cases hs : asAction (E.SelectedItem m.list) with
      | none => rfl
      | some a => simp [hs] at hq
    · rfl
  | windowSize width height => rfl
  | other tag => rfl

theorem foldl_invariant {M : Type} (update : M → Msg → M × Cmd) (P : M → Prop)
    (hstep : ∀ m msg, P m → P (update m msg).1) (msgs : List Msg) (m : M) (hm : P m) :
    P (msgs.foldl (fun m msg => (update m msg).1) m) := by
  induction msgs generalizing m with
  | nil => exact hm
  | cons msg rest ih => exact ih _ (hstep m msg hm)

theorem SelectAction_eq (E : ListEngine) (repo : Repository) (s : Session) :
    SelectAction E repo s
      = match s.runErr with
        | some e => Outcome.failed e
        | none =>
          match runLoop (actionModel.Update E)
              { list := E.New actions, selected := "", repo := repo } s.msgs with
          | none => Outcome.waiting
          | some final => Outcome.done final.selected := by
  unfold SelectAction programRun
  cases s.runErr with
  | some e => rfl
  | none =>
    simp only
    cases runLoop (actionModel.Update E)
      { list := E.New actions, selected := "", repo := repo } s.msgs <;> rfl

theorem actionModel_Update_enter (E : ListEngine) (m : actionModel E) (a : Action)
    (h : E.SelectedItem m.list = some (Item.action a)) :
    actionModel.Update E m (Msg.key "enter") = ({ m with selected := a.ID }, Cmd.quit) := by
  simp [actionModel.Update, h, asAction]

theorem SelectAction_confirm (E : ListEngine) (repo : Repository) (before after : List Msg)
    (a : Action)
    (hrun : runLoop (actionModel.Update E)
      { list := E.New actions, selected := "", repo := repo } before = none)
    (hsel : E.SelectedItem
      (before.foldl (fun m msg => (actionModel.Update E m msg).1)
        { list := E.New actions, selected := "", repo := repo }).list = some (Item.action a)) :
    SelectAction E repo { msgs := before ++ Msg.key "enter" :: after, runErr := none }
      = Outcome.done a.ID := by
  rw [SelectAction_eq]
  simp only
  rw [runLoop_append _ _ _ _ hrun, runLoop_cons]
  rw [actionModel_Update_enter E _ a hsel]
  rfl

theorem SelectAction_cancel (E : ListEngine) (repo : Repository) (before after : List Msg)
    (k : String) (hk : k = "q" ∨ k = "ctrl+c")
    (hrun : runLoop (actionModel.Update E)
      { list := E.New actions, selected := "", repo := repo } before = none) :
    SelectAction E repo { msgs := before ++ Msg.key k :: after, runErr := none }
      = Outcome.done "" := by
  have hsel := foldl_invariant_of_running (actionModel.Update E) (fun m => m.selected = "")
    (fun m msg hm hq => (actionModel_Update_selected E m msg hq).trans hm) before _ rfl hrun
  rw [SelectAction_eq]
  simp only
  rw [runLoop_append _ _ _ _ hrun, runLoop_cons, actionModel_Update_cancel E _ k hk]
  simp only [if_true]
  rw [hsel]

/-- C10: the action phase runs over exactly five actions, in the order clone, copy-name,
copy-url, open, print: `SelectAction` builds its list from this catalogue, the list holds
it after every message, confirming on the first action yields "clone" and confirming on
any highlighted action ends the run with that action's identifier, a cancel key ends it
with the empty string, and a failing run with the error. Whatever the messages, the
identifier `SelectAction` returns without error is one of the five or the empty string,
and each of these six has its own case in the switch of `rootCmd.Run`, which is the
case taken, so the default case never is. -/
theorem action_catalogue_closed (E : ListEngine) (hE : E.Lawful) :
    actionIDs = ["clone", "copy-name", "copy-url", "open", "print"] ∧
    actions.length = 5 ∧
    (∀ (repo : Repository) (s : Session),
      SelectAction E repo s
        = match s.runErr with
          | some e => Outcome.failed e
          | none =>
            match runLoop (actionModel.Update E)
                { list := E.New actions, selected := "", repo := repo } s.msgs with
            | none => Outcome.waiting
            | some final => Outcome.done final.selected) ∧
    (∀ (repo : Repository) (msgs : List Msg),
      E.Items (msgs.foldl (fun m msg => (actionModel.Update E m msg).1)
        { list := E.New actions, selected := "", repo := repo }).list = actions) ∧
    (∀ (m : actionModel E), E.SelectedItem m.list = actions.head? →
      actionModel.Update E m (Msg.key "enter") = ({ m with selected := "clone" }, Cmd.quit)) ∧
    (∀ (repo : Repository) (before after : List Msg) (a : Action),
      runLoop (actionModel.Update E)
        { list := E.New actions, selected := "", repo := repo } before = none →
      E.SelectedItem
        (before.foldl (fun m msg => (actionModel.Update E m msg).1)
          { list := E.New actions, selected := "", repo := repo }).list
        = some (Item.action a) →
      SelectAction E repo { msgs := before ++ Msg.key "enter" :: after, runErr := none }
        = Outcome.done a.ID) ∧
    (∀ (repo : Repository) (before after : List Msg) (k : String), k = "q" ∨ k = "ctrl+c" →
      runLoop (actionModel.Update E)
        { list := E.New actions, selected := "", repo := repo } before = none →
      SelectAction E repo { msgs := before ++ Msg.key k :: after, runErr := none }
        = Outcome.done "") ∧
    (∀ (repo : Repository) (s : Session) (id : String),
      SelectAction E repo s = Outcome.done id → id ∈ actionIDs ∨ id = "") ∧
    (∀ id, id ∈ actionIDs ∨ id = "" → switchCase id ≠ Branch.invalid) ∧
    (List.map switchCase ["clone", "copy-name", "copy-url", "open", "print", ""]
      = [Branch.clone, Branch.copyName, Branch.copyUrl, Branch.open, Branch.print,
          Branch.noAction]) ∧
    (∀ (C : Codec) (noCache : Bool) (w : World) (repoPhase actionPhase : Session)
        (repo : Repository) (id : String),
      (Start C E noCache w repoPhase).result = Outcome.done (some repo) →
      SelectAction E repo actionPhase = Outcome.done id →
      (rootCmdRun C E noCache w repoPhase actionPhase).branch = some (switchCase id) ∧
      (rootCmdRun C E noCache w repoPhase actionPhase).effects
        = Effect.selectAction repo
            :: runBranch (Start C E noCache w repoPhase).world repo (switchCase id)) ∧
    (∀ (C : Codec) (noCache : Bool) (w : World) (repoPhase actionPhase : Session),
      (rootCmdRun C E noCache w repoPhase actionPhase).branch ≠ some Branch.invalid) := by
  refine ⟨by decide, by decide, SelectAction_eq E, ?_, ?_, SelectAction_confirm E,
    fun repo before after k hk hrun => SelectAction_cancel E repo before after k hk hrun,
    SelectAction_closed E hE, switchCase_known, by decide, ?_, ?_⟩
  · intro repo msgs
    exact (foldl_invariant (actionModel.Update E)
      (fun m => E.Items m.list = actions ∧ (m.selected ∈ actionIDs ∨ m.selected = ""))
      (fun m msg hm => actionModel_Update_invariant E hE m msg hm) msgs _
      ⟨hE.items_New _, Or.inr rfl⟩).1
  · intro m h
    simp [actionModel.Update, h, asAction, actions]
  · intro C noCache w repoPhase actionPhase repo id hs ha
    simp [rootCmdRun, hs, ha]
  · intro C noCache w repoPhase actionPhase
    cases hs : (Start C E noCache w repoPhase).result with
    | waiting => simp [rootCmdRun, hs]
    | failed e => simp [rootCmdRun, hs]
    | done r =>
      cases r with
      | none => simp [rootCmdRun, hs]
      | some repo =>
        cases ha : SelectAction E repo actionPhase with
        | waiting => simp [rootCmdRun, hs, ha]
        | failed e => simp [rootCmdRun, hs, ha]
        | done id =>
          simp only [rootCmdRun, hs, ha, ne_eq, Option.some.injEq]
          exact switchCase_known id (SelectAction_closed E hE repo actionPhase id ha)

set_option maxRecDepth 100000 in
/-- C10 at concrete runs over the concrete list: moving the cursor down 0 to 4 times and
confirming yields the five identifiers in catalogue order, a fifth `down` stays on the
last action, the filter "en" singles out "Open", `q` yields the empty string, and in the
spec's scenario A (filter "web", confirm, confirm) the `clone` case runs. -/
theorem action_catalogue_closed_witness :
    basicList.Lawful ∧
    SelectAction basicList ⟨lit "acme/web", lit "frontend app", true⟩
      { msgs := [] ++ Msg.key "enter" :: [], runErr := none } = Outcome.done "clone" ∧
    SelectAction basicList ⟨lit "acme/web", lit "frontend app", true⟩
      { msgs := [Msg.key "down"] ++ Msg.key "enter" :: [], runErr := none }
      = Outcome.done "copy-name" ∧
    SelectAction basicList ⟨lit "acme/web", lit "frontend app", true⟩
      { msgs := [Msg.key "down", Msg.key "down"] ++ Msg.key "enter" :: [], runErr := none }
      = Outcome.done "copy-url" ∧
    SelectAction basicList ⟨lit "acme/web", lit "frontend app", true⟩
      { msgs := [Msg.key "down", Msg.key "down", Msg.key "down"] ++ Msg.key "enter" :: [],
        runErr := none } = Outcome.done "open" ∧
    SelectAction basicList ⟨lit "acme/web", lit "frontend app", true⟩
      { msgs := [Msg.key "down", Msg.key "down", Msg.key "down", Msg.key "down"]
          ++ Msg.key "enter" :: [Msg.key "up", Msg.key "enter"],
        runErr := none } = Outcome.done "print" ∧
    SelectAction basicList ⟨lit "acme/web", lit "frontend app", true⟩
      { msgs := [Msg.key "down", Msg.key "down", Msg.key "down", Msg.key "down", Msg.key "down"]
          ++ Msg.key "enter" :: [],
        runErr := none } = Outcome.done "print" ∧
    SelectAction basicList ⟨lit "acme/web", lit "frontend app", true⟩
      { msgs := [Msg.key "/", Msg.key "e", Msg.key "n"] ++ Msg.key "enter" :: [],
        runErr := none } = Outcome.done "open" ∧
    SelectAction basicList ⟨lit "acme/web", lit "frontend app", true⟩
      { msgs := [Msg.key "down", Msg.key "down"] ++ Msg.key "q" :: [Msg.key "enter"],
        runErr := none } = Outcome.done "" ∧
    SelectAction basicList ⟨lit "acme/web", lit "frontend app", true⟩
      { msgs := [Msg.key "down", Msg.key "enter"], runErr := some (Error.ui 1) }
      = Outcome.failed (Error.ui 1) ∧
    SelectAction basicList ⟨lit "acme/web", lit "frontend app", true⟩
      { msgs := [Msg.key "down", Msg.key "up"], runErr := none } = Outcome.waiting ∧
    (rootCmdRun goJSON basicList false demoWorld
      { msgs := [Msg.key "/", Msg.key "w", Msg.key "e", Msg.key "b", Msg.key "enter"],
        runErr := none }
      { msgs := [Msg.key "enter"], runErr := none }).branch = some Branch.clone ∧
    (rootCmdRun goJSON basicList false demoWorld
      { msgs := [Msg.key "/", Msg.key "w", Msg.key "e", Msg.key "b", Msg.key "enter"],
        runErr := none }
      { msgs := [Msg.key "down", Msg.key "down", Msg.key "down", Msg.key "enter"],
        runErr := none }).effects
      = [ Effect.selectAction ⟨lit "acme/web", lit "frontend app", true⟩,
          Effect.stdout (lit "\nOpening in browser...\n"),
          Effect.run [lit "gh", lit "repo", lit "view", lit "acme/web", lit "--web"] ] :=
  ⟨basicList_lawful,
   (action_catalogue_closed basicList basicList_lawful).2.2.2.2.2.1 _ [] []
     ⟨"clone", "Clone", "Clone repository to current directory"⟩ rfl rfl,
   (action_catalogue_closed basicList basicList_lawful).2.2.2.2.2.1 _ [Msg.key "down"] []
     ⟨"copy-name", "Copy Name", "Copy owner/repo to clipboard"⟩ rfl rfl,
   (action_catalogue_closed basicList basicList_lawful).2.2.2.2.2.1 _
     [Msg.key "down", Msg.key "down"] []
     ⟨"copy-url", "Copy URL", "Copy full GitHub URL to clipboard"⟩ rfl rfl,
   (action_catalogue_closed basicList basicList_lawful).2.2.2.2.2.1 _
     [Msg.key "down", Msg.key "down", Msg.key "down"] []
     ⟨"open", "Open", "Open in default browser"⟩ rfl rfl,
   (action_catalogue_closed basicList basicList_lawful).2.2.2.2.2.1 _
     [Msg.key "down", Msg.key "down", Msg.key "down", Msg.key "down"]
     [Msg.key "up", Msg.key "enter"]
     ⟨"print", "Print", "Print name and exit"⟩ rfl rfl,
   (action_catalogue_closed basicList basicList_lawful).2.2.2.2.2.1 _
     [Msg.key "down", Msg.key "down", Msg.key "down", Msg.key "down", Msg.key "down"] []
     ⟨"print", "Print", "Print name and exit"⟩ rfl rfl,
   (action_catalogue_closed basicList basicList_lawful).2.2.2.2.2.1 _
     [Msg.key "/", Msg.key "e", Msg.key "n"] []
     ⟨"open", "Open", "Open in default browser"⟩ rfl rfl,
   (action_catalogue_closed basicList basicList_lawful).2.2.2.2.2.2.1 _
     [Msg.key "down", Msg.key "down"] [Msg.key "enter"] "q" (Or.inl rfl) rfl,
   by decide, by decide, by decide, by decide⟩

/-! ## Theorems: row rendering -/

theorem DecodeRune_size (s : GoString) (h : s ≠ []) :
    1 ≤ (DecodeRune s).2 ∧ (DecodeRune s).2 ≤ s.length := by
  rcases s with _ | ⟨b0, _ | ⟨b1, _ | ⟨b2, _ | ⟨b3, rest⟩⟩⟩⟩
  · exact absurd rfl h
  all_goals
    simp only [DecodeRune, List.length_cons, List.length_nil]
    split_ifs <;> simp

theorem replicate_succ32 (k : Nat) : List.replicate (k + 1) 32 = 32 :: List.replicate k 32 := rfl

set_option maxHeartbeats 4000000 in
theorem DecodeRune_append_spaces (s : GoString) (k : Nat) (h : s ≠ []) :
    DecodeRune (s ++ List.replicate k 32) = DecodeRune s := by
  rcases s with _ | ⟨b0, _ | ⟨b1, _ | ⟨b2, _ | ⟨b3, rest⟩⟩⟩⟩
  · exact absurd rfl h
  · rcases k with _ | _ | _ | k
    · simp
    · simp only [replicate_succ32, List.replicate_zero, List.cons_append, List.nil_append, DecodeRune, isCont]
      split_ifs <;> simp_all
    · simp only [replicate_succ32, List.replicate_zero, List.cons_append, List.nil_append, DecodeRune, isCont]
      split_ifs <;> simp_all
    · simp only [replicate_succ32, List.replicate_zero, List.cons_append, List.nil_append, DecodeRune, isCont]
      split_ifs <;> simp_all
  · rcases k with _ | _ | k
    · simp
    · simp only [replicate_succ32, List.replicate_zero, List.cons_append, List.nil_append, DecodeRune, isCont]
      split_ifs <;> simp_all
    · simp only [replicate_succ32, List.replicate_zero, List.cons_append, List.nil_append, DecodeRune, isCont]
      split_ifs <;> simp_all
  · rcases k with _ | k
    · simp
    · simp only [replicate_succ32, List.replicate_zero, List.cons_append, List.nil_append, DecodeRune, isCont]
      split_ifs <;> simp_all
  · simp only [DecodeRune, List.cons_append]

theorem runeCountAux_cons (fuel b : Nat) (rest : GoString) :
    runeCountAux (fuel + 1) (b :: rest)
      = 1 + runeCountAux fuel (rest.drop ((DecodeRune (b :: rest)).2 - 1)) := rfl

theorem runeCountAux_nil (fuel : Nat) : runeCountAux fuel [] = 0 := by
  cases fuel <;> rfl

theorem runeCountAux_spaces (k fuel : Nat) (h : k ≤ fuel) :
    runeCountAux fuel (List.replicate k 32) = k := by
  induction k generalizing fuel with
  | zero => exact runeCountAux_nil fuel
  | succ k ih =>
    obtain ⟨f, rfl⟩ : ∃ f, fuel = f + 1 := ⟨fuel - 1, by omega⟩
    rw [replicate_succ32, runeCountAux_cons]
    have h32 : (DecodeRune (32 :: List.replicate k 32)).2 = 1 := by simp [DecodeRune]
    rw [h32, Nat.sub_self, List.drop_zero, ih f (by omega)]
    omega

theorem runeCountAux_append_spaces (fuel : Nat) :
    ∀ (s : GoString) (k fuel' : Nat), s.length ≤ fuel → s.length + k ≤ fuel' →
      runeCountAux fuel' (s ++ List.replicate k 32) = runeCountAux fuel s + k := by
  induction fuel with
  | zero =>
    intro s k fuel' hs hk
    have : s = [] := List.length_eq_zero.1 (by omega)
    subst this
    simp only [List.nil_append, runeCountAux, Nat.zero_add]
    exact runeCountAux_spaces k fuel' (by simpa using hk)
  | succ f ih =>
    intro s k fuel' hs hk
    cases s with
    | nil =>
      simp only [List.nil_append, runeCountAux, Nat.zero_add]
      exact runeCountAux_spaces k fuel' (by simpa using hk)
    | cons b rest =>
      obtain ⟨f', rfl⟩ : ∃ f', fuel' = f' + 1 := ⟨fuel' - 1, by simp at hk; omega⟩
      have hsz := DecodeRune_size (b :: rest) (by simp)
      have hdec := DecodeRune_append_spaces (b :: rest) k (by simp)
      rw [List.cons_append] at hdec
      rw [List.cons_append, runeCountAux_cons, runeCountAux_cons, hdec]
      simp only [List.length_cons] at hsz hs hk
      rw [List.drop_append_of_le_length (by omega)]
      rw [ih (rest.drop ((DecodeRune (b :: rest)).2 - 1)) k f' (by simp; omega) (by simp; omega)]
      omega

theorem RuneCountInString_padRight (width : Nat) (s : GoString) :
    RuneCountInString (s ++ List.replicate (width - RuneCountInString s) 32)
      = max width (RuneCountInString s) := by
  unfold RuneCountInString
  rw [runeCountAux_append_spaces s.length s _ _ (le_refl _) (by simp)]
  omega

/-- The description as `Render` shows it, in bytes: unchanged up to 50 bytes, otherwise
the first 47 bytes and three dots. -/
theorem shownDescription_bytes (d : GoString) :
    (d.length ≤ 50 → shownDescription d = d) ∧
    (50 < d.length → shownDescription d = d.take 47 ++ lit "...") ∧
    (shownDescription d).length ≤ 50 := by
  have h3 : (lit "...").length = 3 := by decide
  unfold shownDescription
  refine ⟨fun h => by simp [not_lt.2 h], fun h => by simp [h], ?_⟩
  split_ifs with h
  · simp only [List.length_append, List.length_take, h3]
    omega
  · omega

/-- C6 fails on the code for a description with multi-byte characters: the 19
characters of "这是一个用于快速选择仓库的命令行小工具" take 57 bytes, so `Render` cuts the text
after byte 47, inside the 16th character, although it has fewer than 50 characters; what
it shows is neither the description nor valid UTF-8. -/
theorem description_cut_inside_character :
    RuneCountInString (lit "这是一个用于快速选择仓库的命令行小工具") = 19 ∧
    (lit "这是一个用于快速选择仓库的命令行小工具").length = 57 ∧
    shownDescription (lit "这是一个用于快速选择仓库的命令行小工具")
      = lit "这是一个用于快速选择仓库的命令" ++ [0xE8, 0xA1] ++ lit "..." ∧
    shownDescription (lit "这是一个用于快速选择仓库的命令行小工具")
      ≠ lit "这是一个用于快速选择仓库的命令行小工具" ∧
    ValidString (shownDescription (lit "这是一个用于快速选择仓库的命令行小工具")) = false := by
  decide

/-- C7 (amended): in both row formats the title is written in full and followed by
`40 - n` spaces, `n` its number of runes, when `n < 40`: a title of at most 40
characters fills exactly 40 columns, a longer title is not cut and takes its own width;
then come one space and the PRIVATE/PUBLIC tag. -/
theorem title_column_padded_not_truncated (S : Styles) (cursor index : Int) (i : item) :
    itemDelegate.Render S cursor index (some (Item.repo i))
      = (if index = cursor then
          S.SelectedItem
            ((if i.repo.IsPrivate then lit "🔒" else lit "🌐") ++ lit " "
              ++ (i.repo.NameWithOwner
                    ++ List.replicate (40 - RuneCountInString i.repo.NameWithOwner) 32)
              ++ lit " "
              ++ (if i.repo.IsPrivate then S.TagPrivate (lit "PRIVATE")
                  else S.TagPublic (lit "PUBLIC"))
              ++ lit "\n   " ++ S.DimText (shownDescription i.repo.Description))
        else
          lit "  " ++ (if i.repo.IsPrivate then lit "🔒" else lit "🌐") ++ lit " "
            ++ (i.repo.NameWithOwner
                  ++ List.replicate (40 - RuneCountInString i.repo.NameWithOwner) 32)
            ++ lit " "
            ++ (if i.repo.IsPrivate then S.TagPrivate (lit "PRIVATE")
                else S.TagPublic (lit "PUBLIC"))
            ++ lit "\n     " ++ S.DimText (shownDescription i.repo.Description)) ∧
    RuneCountInString
        (i.repo.NameWithOwner ++ List.replicate (40 - RuneCountInString i.repo.NameWithOwner) 32)
      = max 40 (RuneCountInString i.repo.NameWithOwner) ∧
    (RuneCountInString i.repo.NameWithOwner ≤ 40 →
      RuneCountInString (padRight 40 i.repo.NameWithOwner) = 40) ∧
    (40 ≤ RuneCountInString i.repo.NameWithOwner →
      padRight 40 i.repo.NameWithOwner = i.repo.NameWithOwner) := by
  refine ⟨?_, RuneCountInString_padRight 40 _, ?_, ?_⟩
  · simp only [itemDelegate.Render, asItem, padRight, item.Title, item.Description]
  · intro h
    unfold padRight
    rw [RuneCountInString_padRight]
    omega
  · intro h
    unfold padRight
    rw [Nat.sub_eq_zero_of_le h]
    simp

/-- C7 as stated fails: a title of 47 characters is rendered in full, so its title
field is 47 wide and its tag starts 7 columns further right than in a row with a short
title. -/
theorem long_title_not_truncated :
    RuneCountInString (lit "some-organization/a-repository-with-a-long-name") = 47 ∧
    RuneCountInString (padRight 40 (lit "some-organization/a-repository-with-a-long-name")) = 47 ∧
    itemDelegate.Render plainStyles 0 1
        (some (Item.repo ⟨⟨lit "some-organization/a-repository-with-a-long-name", [], false⟩⟩))
      = lit "  🌐 some-organization/a-repository-with-a-long-name PUBLIC\n     " ∧
    itemDelegate.Render plainStyles 0 1 (some (Item.repo ⟨⟨lit "acme/api", [], false⟩⟩))
      = lit "  🌐 acme/api                                 PUBLIC\n     " := by
  decide

/-- C7 (amended) at two concrete rows. -/
theorem title_column_padded_not_truncated_witness :
    RuneCountInString (padRight 40 (lit "acme/api")) = 40 ∧
    padRight 40 (lit "some-organization/a-repository-with-a-long-name")
      = lit "some-organization/a-repository-with-a-long-name" :=
  ⟨(title_column_padded_not_truncated plainStyles 0 1 ⟨⟨lit "acme/api", [], false⟩⟩).2.2.1
      (by decide),
   (title_column_padded_not_truncated plainStyles 0 1
      ⟨⟨lit "some-organization/a-repository-with-a-long-name", [], false⟩⟩).2.2.2 (by decide)⟩

/-! ## Theorems: the JSON form of the cache file -/

theorem DecodeRune_EncodeRune (c : Nat) (h : Scalar c) (tail : GoString) :
    DecodeRune (EncodeRune c ++ tail) = (c, (EncodeRune c).length) := by
  unfold Scalar MaxRune at h
  unfold EncodeRune MaxRune
  by_cases h1 : c < 0x80
  · simp [h1, DecodeRune]
  by_cases h2 : c < 0x800
  · simp only [h1, h2, if_false, if_true, List.cons_append, List.nil_append, DecodeRune, isCont,
      List.length_cons, List.length_nil]
    have e1 : ¬ (0xC0 + c / 64 < 0x80) := by omega
    have e2 : ¬ (0xC0 + c / 64 < 0xC2) := by omega
    have e3 : 0xC0 + c / 64 < 0xE0 := by omega
    simp only [e1, e2, e3, if_false, if_true]
    have e4 : (decide (0x80 ≤ 0x80 + c % 64) && decide (0x80 + c % 64 ≤ 0xBF)) = true := by
      simp; omega
    simp only [e4, if_true, Prod.mk.injEq]
    exact ⟨by omega, trivial⟩
  have h3 : ¬ (0x10FFFF < c ∨ (0xD800 ≤ c ∧ c ≤ 0xDFFF)) := by omega
  by_cases h4 : c < 0x10000
  · simp only [h1, h2, h3, h4, if_false, if_true, List.cons_append, List.nil_append, DecodeRune,
      isCont, List.length_cons, List.length_nil]
    have e1 : ¬ (0xE0 + c / 4096 < 0x80) := by omega
    have e2 : ¬ (0xE0 + c / 4096 < 0xC2) := by omega
    have e3 : ¬ (0xE0 + c / 4096 < 0xE0) := by omega
    have e4 : 0xE0 + c / 4096 < 0xF0 := by omega
    simp only [e1, e2, e3, e4, if_false, if_true]
    have e5 : ((if 0xE0 + c / 4096 = 0xE0 then 0xA0 else 0x80) ≤ 0x80 + c / 64 % 64 ∧
        0x80 + c / 64 % 64 ≤ (if 0xE0 + c / 4096 = 0xED then 0x9F else 0xBF) ∧
        (decide (0x80 ≤ 0x80 + c % 64) && decide (0x80 + c % 64 ≤ 0xBF)) = true) := by
      refine ⟨?_, ?_, ?_⟩
      · split_ifs <;> omega
      · split_ifs <;> omega
      · simp; omega
    simp only [e5, and_self, if_true, Prod.mk.injEq]
    exact ⟨by omega, trivial⟩
  · simp only [h1, h2, h3, h4, if_false, if_true, List.cons_append, List.nil_append, DecodeRune,
      isCont, List.length_cons, List.length_nil]
    have e1 : ¬ (0xF0 + c / 262144 < 0x80) := by omega
    have e2 : ¬ (0xF0 + c / 262144 < 0xC2) := by omega
    have e3 : ¬ (0xF0 + c / 262144 < 0xE0) := by omega
    have e4 : ¬ (0xF0 + c / 262144 < 0xF0) := by omega
    have e4' : 0xF0 + c / 262144 < 0xF5 := by omega
    simp only [e1, e2, e3, e4, e4', if_false, if_true]
    have e5 : ((if 0xF0 + c / 262144 = 0xF0 then 0x90 else 0x80) ≤ 0x80 + c / 4096 % 64 ∧
        0x80 + c / 4096 % 64 ≤ (if 0xF0 + c / 262144 = 0xF4 then 0x8F else 0xBF) ∧
        (decide (0x80 ≤ 0x80 + c / 64 % 64) && decide (0x80 + c / 64 % 64 ≤ 0xBF)) = true ∧
        (decide (0x80 ≤ 0x80 + c % 64) && decide (0x80 + c % 64 ≤ 0xBF)) = true) := by
      refine ⟨?_, ?_, ?_, ?_⟩
      · split_ifs <;> omega
      · split_ifs <;> omega
      · simp; omega
      · simp; omega
    simp only [e5, and_self, if_true, Prod.mk.injEq]
    exact ⟨by omega, trivial⟩

theorem DecodeRune_valid (s : GoString) (hs : s ≠ []) (hv : DecodeRune s ≠ (RuneError, 1)) :
    Scalar (DecodeRune s).1 ∧ s = EncodeRune (DecodeRune s).1 ++ s.drop (DecodeRune s).2 := by
  unfold Scalar MaxRune
  rcases s with _ | ⟨b0, rest⟩
  · exact absurd rfl hs
  by_cases h1 : b0 < 0x80
  · have hd : DecodeRune (b0 :: rest) = (b0, 1) := by simp [DecodeRune, h1]
    rw [hd]
    refine ⟨⟨by omega, by omega⟩, ?_⟩
    simp [EncodeRune, h1]
  by_cases h2 : b0 < 0xC2
  · exact absurd (by simp [DecodeRune, h1, h2]) hv
  by_cases h3 : b0 < 0xE0
  · rcases rest with _ | ⟨b1, rest⟩
    · exact absurd (by simp [DecodeRune, h1, h2, h3]) hv
    by_cases hc : isCont b1 = true
    · have hd : DecodeRune (b0 :: b1 :: rest) = ((b0 % 32) * 64 + b1 % 64, 2) := by
        simp [DecodeRune, h1, h2, h3, hc]
      rw [hd]
      simp only [isCont, Bool.and_eq_true, decide_eq_true_eq] at hc
      refine ⟨⟨by omega, by omega⟩, ?_⟩
      have g1 : ¬ ((b0 % 32) * 64 + b1 % 64 < 0x80) := by omega
      have g2 : (b0 % 32) * 64 + b1 % 64 < 0x800 := by omega
      simp only [EncodeRune, g1, g2, if_false, if_true, List.cons_append, List.nil_append,
        List.drop_succ_cons, List.drop_zero, List.cons.injEq, and_true]
      exact ⟨by omega, by omega⟩
    · exact absurd (by simp [DecodeRune, h1, h2, h3, hc]) hv
  by_cases h4 : b0 < 0xF0
  · rcases rest with _ | ⟨b1, _ | ⟨b2, rest⟩⟩
    · exact absurd (by simp [DecodeRune, h1, h2, h3, h4]) hv
    · exact absurd (by simp [DecodeRune, h1, h2, h3, h4]) hv
    by_cases hc : (if b0 = 0xE0 then 0xA0 else 0x80) ≤ b1 ∧
        b1 ≤ (if b0 = 0xED then 0x9F else 0xBF) ∧ isCont b2 = true
    · have hd : DecodeRune (b0 :: b1 :: b2 :: rest)
          = ((b0 % 16) * 4096 + (b1 % 64) * 64 + b2 % 64, 3) := by
        simp only [DecodeRune, h1, h2, h3, h4, if_false, if_true, hc, and_self]
      rw [hd]
      obtain ⟨hc1, hc2, hc3⟩ := hc
      simp only [isCont, Bool.and_eq_true, decide_eq_true_eq] at hc3
      have hb1 : 0x80 ≤ b1 ∧ b1 ≤ 0xBF := by
        constructor
        · split_ifs at hc1 <;> omega
        · split_ifs at hc2 <;> omega
      have glo : 0x800 ≤ (b0 % 16) * 4096 + (b1 % 64) * 64 + b2 % 64 := by
        split_ifs at hc1 <;> omega
      have gsur : ¬ (0xD800 ≤ (b0 % 16) * 4096 + (b1 % 64) * 64 + b2 % 64 ∧
          (b0 % 16) * 4096 + (b1 % 64) * 64 + b2 % 64 ≤ 0xDFFF) := by
        split_ifs at hc2 <;> omega
      refine ⟨⟨by omega, gsur⟩, ?_⟩
      have g1 : ¬ ((b0 % 16) * 4096 + (b1 % 64) * 64 + b2 % 64 < 0x80) := by omega
      have g2 : ¬ ((b0 % 16) * 4096 + (b1 % 64) * 64 + b2 % 64 < 0x800) := by omega
      have g3 : ¬ (0x10FFFF < (b0 % 16) * 4096 + (b1 % 64) * 64 + b2 % 64 ∨
          (0xD800 ≤ (b0 % 16) * 4096 + (b1 % 64) * 64 + b2 % 64 ∧
            (b0 % 16) * 4096 + (b1 % 64) * 64 + b2 % 64 ≤ 0xDFFF)) := by
        intro h
        rcases h with h | h
        · omega
        · exact gsur h
      have g4 : (b0 % 16) * 4096 + (b1 % 64) * 64 + b2 % 64 < 0x10000 := by omega
      simp only [EncodeRune, MaxRune, g1, g2, g3, g4, if_false, if_true, List.cons_append,
        List.nil_append, List.drop_succ_cons, List.drop_zero, List.cons.injEq, and_true]
      exact ⟨by omega, by omega, by omega⟩
    · exact absurd (by simp only [DecodeRune, h1, h2, h3, h4, if_false, if_true, hc]) hv
  by_cases h5 : b0 < 0xF5
  · rcases rest with _ | ⟨b1, _ | ⟨b2, _ | ⟨b3, rest⟩⟩⟩
    · exact absurd (by simp [DecodeRune, h1, h2, h3, h4, h5]) hv
    · exact absurd (by simp [DecodeRune, h1, h2, h3, h4, h5]) hv
    · exact absurd (by simp [DecodeRune, h1, h2, h3, h4, h5]) hv
    by_cases hc : (if b0 = 0xF0 then 0x90 else 0x80) ≤ b1 ∧
        b1 ≤ (if b0 = 0xF4 then 0x8F else 0xBF) ∧ isCont b2 = true ∧ isCont b3 = true
    · have hd : DecodeRune (b0 :: b1 :: b2 :: b3 :: rest)
          = ((b0 % 8) * 262144 + (b1 % 64) * 4096 + (b2 % 64) * 64 + b3 % 64, 4) := by
        simp only [DecodeRune, h1, h2, h3, h4, h5, if_false, if_true, hc, and_self]
      rw [hd]
      obtain ⟨hc1, hc2, hc3, hc4⟩ := hc
      simp only [isCont, Bool.and_eq_true, decide_eq_true_eq] at hc3 hc4
      have hb1 : 0x80 ≤ b1 ∧ b1 ≤ 0xBF := by
        constructor
        · split_ifs at hc1 <;> omega
        · split_ifs at hc2 <;> omega
      have glo : 0x10000 ≤ (b0 % 8) * 262144 + (b1 % 64) * 4096 + (b2 % 64) * 64 + b3 % 64 := by
        split_ifs at hc1 <;> omega
      have ghi : (b0 % 8) * 262144 + (b1 % 64) * 4096 + (b2 % 64) * 64 + b3 % 64 ≤ 0x10FFFF := by
        split_ifs at hc2 <;> omega
      refine ⟨⟨ghi, by omega⟩, ?_⟩
      have g1 : ¬ ((b0 % 8) * 262144 + (b1 % 64) * 4096 + (b2 % 64) * 64 + b3 % 64 < 0x80) := by
        omega
      have g2 : ¬ ((b0 % 8) * 262144 + (b1 % 64) * 4096 + (b2 % 64) * 64 + b3 % 64 < 0x800) := by
        omega
      have g3 : ¬ (0x10FFFF < (b0 % 8) * 262144 + (b1 % 64) * 4096 + (b2 % 64) * 64 + b3 % 64 ∨
          (0xD800 ≤ (b0 % 8) * 262144 + (b1 % 64) * 4096 + (b2 % 64) * 64 + b3 % 64 ∧
            (b0 % 8) * 262144 + (b1 % 64) * 4096 + (b2 % 64) * 64 + b3 % 64 ≤ 0xDFFF)) := by
        omega
      have g4 : ¬ ((b0 % 8) * 262144 + (b1 % 64) * 4096 + (b2 % 64) * 64 + b3 % 64 < 0x10000) := by
        omega
      simp only [EncodeRune, MaxRune, g1, g2, g3, g4, if_false, if_true, List.cons_append,
        List.nil_append, List.drop_succ_cons, List.drop_zero, List.cons.injEq, and_true]
      exact ⟨by omega, by omega, by omega, by omega⟩
    · exact absurd (by simp only [DecodeRune, h1, h2, h3, h4, h5, if_false, if_true, hc]) hv
  · exact absurd (by simp [DecodeRune, h1, h2, h3, h4, h5]) hv

theorem EncodeRune_cases (c : Nat) (h : Scalar c) :
    (c < 0x80 ∧ EncodeRune c = [c]) ∨
    (0x80 ≤ c ∧ ∃ b0 t, EncodeRune c = b0 :: t ∧ 0xC2 ≤ b0 ∧ t ≠ []) := by
  unfold Scalar MaxRune at h
  unfold EncodeRune MaxRune
  by_cases h1 : c < 0x80
  · exact Or.inl ⟨h1, by simp [h1]⟩
  refine Or.inr ⟨by omega, ?_⟩
  by_cases h2 : c < 0x800
  · exact ⟨0xC0 + c / 64, [0x80 + c % 64], by simp only [h1, h2, if_false, if_true],
      by omega, by simp⟩
  have h3 : ¬ (0x10FFFF < c ∨ (0xD800 ≤ c ∧ c ≤ 0xDFFF)) := by omega
  by_cases h4 : c < 0x10000
  · exact ⟨0xE0 + c / 4096, [0x80 + c / 64 % 64, 0x80 + c % 64],
      by simp only [h1, h2, h3, h4, if_false, if_true], by omega, by simp⟩
  · exact ⟨0xF0 + c / 262144, [0x80 + c / 4096 % 64, 0x80 + c / 64 % 64, 0x80 + c % 64],
      by simp only [h1, h2, h3, h4, if_false, if_true], by omega, by simp⟩

theorem validAux_runes (fuel : Nat) :
    ∀ s : GoString, validAux fuel s = true →
      ∃ cs : List Nat, (∀ c ∈ cs, Scalar c) ∧ s = cs.flatMap EncodeRune := by
  induction fuel with
  | zero =>
    intro s h
    cases s with
    | nil => exact ⟨[], by simp, rfl⟩
    | cons b rest => simp [validAux] at h
  | succ f ih =>
    intro s h
    cases s with
    | nil => exact ⟨[], by simp, rfl⟩
    | cons b rest =>
      simp only [validAux] at h
      split_ifs at h with hd
      obtain ⟨cs, hcs, hrest⟩ := ih _ h
      obtain ⟨hsc, heq⟩ := DecodeRune_valid (b :: rest) (by simp) hd
      have hsz := DecodeRune_size (b :: rest) (by simp)
      refine ⟨(DecodeRune (b :: rest)).1 :: cs, ?_, ?_⟩
      · intro c hc
        rcases List.mem_cons.1 hc with rfl | hc
        · exact hsc
        · exact hcs c hc
      · have hdrop : (b :: rest).drop (DecodeRune (b :: rest)).2
            = rest.drop ((DecodeRune (b :: rest)).2 - 1) := by
          obtain ⟨k, hk⟩ : ∃ k, (DecodeRune (b :: rest)).2 = k + 1 :=
            ⟨(DecodeRune (b :: rest)).2 - 1, by omega⟩
          rw [hk]; simp
        rw [List.flatMap_cons, ← hrest, ← hdrop]
        exact heq

theorem ValidString_runes (s : GoString) (h : ValidString s = true) :
    ∃ cs : List Nat, (∀ c ∈ cs, Scalar c) ∧ s = cs.flatMap EncodeRune :=
  validAux_runes s.length s h

theorem appendStringAux_cons (fuel b : Nat) (rest : GoString) :
    appendStringAux (fuel + 1) (b :: rest)
      = if b < RuneSelf then escapeByte b ++ appendStringAux fuel rest
        else if DecodeRune (b :: rest) = (RuneError, 1) then
          lit "\\ufffd" ++ appendStringAux fuel rest
        else if (DecodeRune (b :: rest)).1 = 0x2028 ∨ (DecodeRune (b :: rest)).1 = 0x2029 then
          lit "\\u202" ++ [hexDigit ((DecodeRune (b :: rest)).1 % 16)]
            ++ appendStringAux fuel (rest.drop ((DecodeRune (b :: rest)).2 - 1))
        else (b :: rest).take (DecodeRune (b :: rest)).2
            ++ appendStringAux fuel (rest.drop ((DecodeRune (b :: rest)).2 - 1)) := rfl

theorem appendStringAux_runes (cs : List Nat) (hcs : ∀ c ∈ cs, Scalar c) :
    ∀ fuel, cs.length ≤ fuel →
      appendStringAux fuel (cs.flatMap EncodeRune) = cs.flatMap escapeRune := by
  induction cs with
  | nil => intro fuel _; cases fuel <;> rfl
  | cons c cs ih =>
    intro fuel hf
    obtain ⟨f, rfl⟩ : ∃ f, fuel = f + 1 := ⟨fuel - 1, by simp at hf; omega⟩
    have hc : Scalar c := hcs c (List.mem_cons_self _ _)
    have ih' := ih (fun x hx => hcs x (List.mem_cons_of_mem _ hx)) f (by simp at hf; omega)
    rw [List.flatMap_cons, List.flatMap_cons]
    rcases EncodeRune_cases c hc with ⟨hlt, he⟩ | ⟨hge, b0, t, he, hb0, _⟩
    · rw [he, List.singleton_append, appendStringAux_cons]
      have h1 : c < RuneSelf := hlt
      simp only [h1, if_true, ih', escapeRune]
    · have hd := DecodeRune_EncodeRune c hc (cs.flatMap EncodeRune)
      rw [he] at hd
      rw [he, List.cons_append, appendStringAux_cons]
      rw [List.cons_append, List.length_cons] at hd
      have hb : ¬ (b0 < RuneSelf) := by unfold RuneSelf; omega
      have hne : ¬ ((c, t.length + 1) = (RuneError, 1)) := by
        intro h
        have := (Prod.mk.inj h).2
        have : t.length = 0 := by omega
        simp_all
      have hcr : ¬ (c < RuneSelf) := by unfold RuneSelf; omega
      have hdrop : List.drop (t.length + 1 - 1) (t ++ cs.flatMap EncodeRune)
          = cs.flatMap EncodeRune := by simp
      have htake : List.take (t.length + 1) (b0 :: (t ++ cs.flatMap EncodeRune)) = b0 :: t := by
        simp
      simp only [hb, if_false, hd, hne, hdrop, htake, ih', escapeRune, hcr]
      split_ifs <;> simp [he]

theorem readString_cons (fuel b : Nat) (rest : GoString) :
    readString (fuel + 1) (b :: rest)
      = if b = 0x22 then some ([], rest)
        else if b = 0x5C then
          match rest with
          | [] => none
          | e :: rest' =>
            if e = 0x22 ∨ e = 0x5C ∨ e = 0x2F then
              (readString fuel rest').map (fun r => (e :: r.1, r.2))
            else if e = 0x62 then (readString fuel rest').map (fun r => (0x08 :: r.1, r.2))
            else if e = 0x66 then (readString fuel rest').map (fun r => (0x0C :: r.1, r.2))
            else if e = 0x6E then (readString fuel rest').map (fun r => (0x0A :: r.1, r.2))
            else if e = 0x72 then (readString fuel rest').map (fun r => (0x0D :: r.1, r.2))
            else if e = 0x74 then (readString fuel rest').map (fun r => (0x09 :: r.1, r.2))
            else if e = 0x75 then
              match getu4 (b :: rest) with
              | none => none
              | some rr =>
                if IsSurrogate rr then
                  if utf16DecodeRune rr (getu4 (rest'.drop 4)) ≠ RuneError then
                    (readString fuel ((rest'.drop 4).drop 6)).map
                      (fun r => (EncodeRune (utf16DecodeRune rr (getu4 (rest'.drop 4))) ++ r.1, r.2))
                  else
                    (readString fuel (rest'.drop 4)).map
                      (fun r => (EncodeRune RuneError ++ r.1, r.2))
                else (readString fuel (rest'.drop 4)).map (fun r => (EncodeRune rr ++ r.1, r.2))
            else none
        else if b < 0x20 then none
        else if b < RuneSelf then (readString fuel rest).map (fun r => (b :: r.1, r.2))
        else
          (readString fuel (rest.drop ((DecodeRune (b :: rest)).2 - 1))).map
            (fun r => (EncodeRune (DecodeRune (b :: rest)).1 ++ r.1, r.2)) := by
  cases rest <;> rfl

theorem hexVal_hexDigit (n : Nat) (h : n < 16) : hexVal (hexDigit n) = some n := by
  interval_cases n <;> decide

theorem readString_escapeByte (c : Nat) (hc : c < 0x80) (fuel : Nat) (tail : GoString) :
    readString (fuel + 1) (escapeByte c ++ tail)
      = (readString fuel tail).map (fun r => (c :: r.1, r.2)) := by
  unfold escapeByte
  by_cases hs : htmlSafe c = true
  · simp only [hs, if_true, List.singleton_append]
    rw [readString_cons]
    simp only [htmlSafe, Bool.and_eq_true, decide_eq_true_eq, bne_iff_ne, ne_eq] at hs
    have h1 : ¬ c = 0x22 := by tauto
    have h2 : ¬ c = 0x5C := by tauto
    have h3 : ¬ c < 0x20 := by omega
    have h4 : c < RuneSelf := hc
    simp only [h1, h2, h3, h4, if_false, if_true]
  · simp only [hs, Bool.false_eq_true, if_false]
    by_cases h1 : c = 0x5C ∨ c = 0x22
    · rcases h1 with rfl | rfl <;> simp [readString_cons]
    simp only [h1, if_false]
    by_cases h2 : c = 0x08
    · subst h2
      rw [show lit "\\b" = [0x5C, 0x62] by decide]
      simp [readString_cons]
    by_cases h3 : c = 0x0C
    · subst h3
      rw [show lit "\\f" = [0x5C, 0x66] by decide]
      simp [readString_cons]
    by_cases h4 : c = 0x0A
    · subst h4
      rw [show lit "\\n" = [0x5C, 0x6E] by decide]
      simp [readString_cons]
    by_cases h5 : c = 0x0D
    · subst h5
      rw [show lit "\\r" = [0x5C, 0x72] by decide]
      simp [readString_cons]
    by_cases h6 : c = 0x09
    · subst h6
      rw [show lit "\\t" = [0x5C, 0x74] by decide]
      simp [readString_cons]
    simp only [h2, h3, h4, h5, h6, if_false]
    rw [show lit "\\u00" = [0x5C, 0x75, 0x30, 0x30] by decide]
    have hg : getu4 (0x5C :: 0x75 :: 0x30 :: 0x30 :: hexDigit (c / 16) :: hexDigit (c % 16) :: tail)
        = some c := by
      simp only [getu4, hexVal_hexDigit (c / 16) (by omega), hexVal_hexDigit (c % 16) (by omega),
        show hexVal 0x30 = some 0 by decide]
      congr 1
      omega
    have hsur : IsSurrogate c = false := by
      simp [IsSurrogate]; omega
    have henc : EncodeRune c = [c] := by simp [EncodeRune, hc]
    simp only [List.cons_append, List.nil_append]
    rw [readString_cons]
    simp only [hg, hsur, henc]
    simp

theorem readString_escapeRune (c : Nat) (hc : Scalar c) (fuel : Nat) (tail : GoString) :
    readString (fuel + 1) (escapeRune c ++ tail)
      = (readString fuel tail).map (fun r => (EncodeRune c ++ r.1, r.2)) := by
  unfold escapeRune
  rcases EncodeRune_cases c hc with ⟨hlt, he⟩ | ⟨hge, b0, t, he, hb0, _⟩
  · have h1 : c < RuneSelf := hlt
    simp only [h1, if_true, he, List.singleton_append]
    exact readString_escapeByte c hlt fuel tail
  · have h1 : ¬ c < RuneSelf := by unfold RuneSelf; omega
    simp only [h1, if_false]
    by_cases h2 : c = 0x2028 ∨ c = 0x2029
    · simp only [h2, if_true]
      rcases h2 with rfl | rfl
      · rw [show lit "\\u202" ++ [hexDigit (0x2028 % 16)] = [0x5C, 0x75, 0x32, 0x30, 0x32, 0x38]
          by decide]
        simp only [List.cons_append, List.nil_append]
        rw [readString_cons]
        have hg : getu4 (0x5C :: 0x75 :: 0x32 :: 0x30 :: 0x32 :: 0x38 :: tail) = some 0x2028 := by
          simp [getu4, hexVal]
        simp only [hg]
        simp [IsSurrogate]
      · rw [show lit "\\u202" ++ [hexDigit (0x2029 % 16)] = [0x5C, 0x75, 0x32, 0x30, 0x32, 0x39]
          by decide]
        simp only [List.cons_append, List.nil_append]
        rw [readString_cons]
        have hg : getu4 (0x5C :: 0x75 :: 0x32 :: 0x30 :: 0x32 :: 0x39 :: tail) = some 0x2029 := by
          simp [getu4, hexVal]
        simp only [hg]
        simp [IsSurrogate]
    · simp only [h2, if_false]
      have hd := DecodeRune_EncodeRune c hc tail
      rw [he] at hd ⊢
      rw [List.cons_append] at hd ⊢
      rw [readString_cons, hd]
      have g1 : ¬ b0 = 0x22 := by omega
      have g2 : ¬ b0 = 0x5C := by omega
      have g3 : ¬ b0 < 0x20 := by omega
      have g4 : ¬ b0 < RuneSelf := by unfold RuneSelf; omega
      simp only [g1, g2, g3, g4, if_false, List.length_cons, Nat.add_sub_cancel,
        List.drop_left, he]

theorem escapeRune_length (c : Nat) (hc : Scalar c) : 1 ≤ (escapeRune c).length := by
  unfold escapeRune
  rcases EncodeRune_cases c hc with ⟨_, he⟩ | ⟨_, b0, t, he, _, _⟩
  · split_ifs
    · unfold escapeByte
      split_ifs <;> simp [lit, EncodeRune]
    · simp
    · simp [he]
  · split_ifs
    · unfold escapeByte
      split_ifs <;> simp [lit, EncodeRune]
    · simp
    · simp [he]

theorem flatMap_escapeRune_length (cs : List Nat) (hcs : ∀ c ∈ cs, Scalar c) :
    cs.length ≤ (cs.flatMap escapeRune).length := by
  induction cs with
  | nil => simp
  | cons c cs ih =>
    have h1 := escapeRune_length c (hcs c (List.mem_cons_self _ _))
    have h2 := ih (fun x hx => hcs x (List.mem_cons_of_mem _ hx))
    simp only [List.flatMap_cons, List.length_append, List.length_cons]
    omega

theorem flatMap_EncodeRune_length (cs : List Nat) (hcs : ∀ c ∈ cs, Scalar c) :
    cs.length ≤ (cs.flatMap EncodeRune).length := by
  induction cs with
  | nil => simp
  | cons c cs ih =>
    have h2 := ih (fun x hx => hcs x (List.mem_cons_of_mem _ hx))
    have h1 : 1 ≤ (EncodeRune c).length := by
      rcases EncodeRune_cases c (hcs c (List.mem_cons_self _ _)) with ⟨_, he⟩ | ⟨_, b0, t, he, _, _⟩
        <;> simp [he]
    simp only [List.flatMap_cons, List.length_append, List.length_cons]
    omega

theorem readString_runes (cs : List Nat) (hcs : ∀ c ∈ cs, Scalar c) :
    ∀ (fuel : Nat) (rest : GoString), cs.length < fuel →
      readString fuel (cs.flatMap escapeRune ++ 0x22 :: rest)
        = some (cs.flatMap EncodeRune, rest) := by
  induction cs with
  | nil =>
    intro fuel rest hf
    obtain ⟨f, rfl⟩ : ∃ f, fuel = f + 1 := ⟨fuel - 1, by simp at hf; omega⟩
    simp [readString_cons]
  | cons c cs ih =>
    intro fuel rest hf
    obtain ⟨f, rfl⟩ : ∃ f, fuel = f + 1 := ⟨fuel - 1, by simp at hf; omega⟩
    have ih' := ih (fun x hx => hcs x (List.mem_cons_of_mem _ hx)) f rest
      (by simp at hf; omega)
    rw [List.flatMap_cons, List.flatMap_cons, List.append_assoc,
      readString_escapeRune c (hcs c (List.mem_cons_self _ _)), ih']
    rfl

/-- A valid UTF-8 string is read back from its JSON form. -/
theorem readString_appendString (s : GoString) (hv : ValidString s = true) (fuel : Nat)
    (rest : GoString) (hf : (appendStringAux s.length s).length < fuel) :
    readString fuel (appendStringAux s.length s ++ 0x22 :: rest) = some (s, rest) := by
  obtain ⟨cs, hcs, rfl⟩ := ValidString_runes s hv
  have hlen := flatMap_EncodeRune_length cs hcs
  rw [appendStringAux_runes cs hcs _ hlen] at hf ⊢
  exact readString_runes cs hcs fuel rest (by
    have := flatMap_escapeRune_length cs hcs
    omega)

theorem expect_append (p s : GoString) : expect p (p ++ s) = some s := by
  induction p with
  | nil => cases s <;> rfl
  | cons a p ih => simp [expect, ih]

theorem readBool_encode (b : Bool) (rest : GoString) :
    readBool ((if b then lit "true" else lit "false") ++ rest) = some (b, rest) := by
  cases b
  · have h1 : expect (lit "true") (lit "false" ++ rest) = none := by
      rw [show lit "true" = [116, 114, 117, 101] by decide,
        show lit "false" = [102, 97, 108, 115, 101] by decide]
      simp [expect]
    simp [readBool, h1, expect_append]
  · simp [readBool, expect_append]

theorem encodeRepository_eq (r : Repository) (rest : GoString) :
    encodeRepository r ++ rest
      = lit "\x7b\"nameWithOwner\":\"" ++ (appendStringAux r.NameWithOwner.length r.NameWithOwner
          ++ 0x22 :: (lit ",\"description\":\"" ++
            (appendStringAux r.Description.length r.Description
              ++ 0x22 :: (lit ",\"isPrivate\":" ++
                ((if r.IsPrivate then lit "true" else lit "false") ++ (lit "\x7d" ++ rest)))))) := by
  have k1 : lit "\x7b\"nameWithOwner\":\"" = lit "\x7b\"nameWithOwner\":" ++ [0x22] := by decide
  have k2 : lit ",\"description\":\"" = lit ",\"description\":" ++ [0x22] := by decide
  rw [k1, k2]
  simp only [encodeRepository, appendString, List.append_assoc, List.singleton_append,
    List.cons_append, List.nil_append]

theorem readRepository_encode (r : Repository) (hr : r.Valid) (n : Nat) (rest : GoString)
    (hn : (encodeRepository r ++ rest).length ≤ n) :
    readRepository n (encodeRepository r ++ rest) = some (r, rest) := by
  rw [encodeRepository_eq] at hn ⊢
  simp only [List.length_append, List.length_cons] at hn
  unfold readRepository
  rw [expect_append]
  simp only [Option.some_bind]
  rw [readString_appendString _ hr.1 n _ (by omega)]
  simp only [Option.some_bind]
  rw [expect_append]
  simp only [Option.some_bind]
  rw [readString_appendString _ hr.2 n _ (by omega)]
  simp only [Option.some_bind]
  rw [expect_append]
  simp only [Option.some_bind]
  rw [readBool_encode]
  simp only [Option.some_bind]
  rw [expect_append]
  rfl

theorem encodeElements_cons_cons (r r' : Repository) (rs : List Repository) :
    encodeElements (r :: r' :: rs) = encodeRepository r ++ (0x2C :: encodeElements (r' :: rs)) := by
  simp only [encodeElements, show lit "," = [0x2C] by decide, List.append_assoc,
    List.singleton_append]

theorem encodeRepository_head (r : Repository) :
    ∃ t, encodeRepository r = 0x7B :: t ∧ 1 ≤ t.length := by
  refine ⟨_, by
    rw [← List.append_nil (encodeRepository r), encodeRepository_eq,
      show lit "\x7b\"nameWithOwner\":\"" = 0x7B :: lit "\"nameWithOwner\":\"" by decide,
      List.cons_append], ?_⟩
  simp only [List.length_append, show (lit "\"nameWithOwner\":\"").length = 17 by decide]
  omega

theorem encodeElements_head (r : Repository) (rs : List Repository) :
    ∃ t, encodeElements (r :: rs) = 0x7B :: t ∧ rs.length + 1 ≤ t.length := by
  induction rs generalizing r with
  | nil =>
    obtain ⟨t, ht, hl⟩ := encodeRepository_head r
    exact ⟨t, ht, by simpa using hl⟩
  | cons r' rs ih =>
    obtain ⟨t, ht, _⟩ := encodeRepository_head r
    obtain ⟨t', ht', hl'⟩ := ih r'
    refine ⟨t ++ (0x2C :: encodeElements (r' :: rs)), ?_, ?_⟩
    · rw [encodeElements_cons_cons, ht, List.cons_append]
    · rw [ht']
      simp only [List.length_append, List.length_cons] at hl' ⊢
      omega

theorem readElements_encode (n : Nat) :
    ∀ (rs : List Repository) (r : Repository) (fuel : Nat) (rest : GoString),
      (∀ x ∈ r :: rs, x.Valid) → rs.length < fuel →
      (encodeElements (r :: rs) ++ 0x5D :: rest).length ≤ n →
      readElements n fuel (encodeElements (r :: rs) ++ 0x5D :: rest) = some (r :: rs, rest) := by
  intro rs
  induction rs with
  | nil =>
    intro r fuel rest hv hf hn
    obtain ⟨f, rfl⟩ : ∃ f, fuel = f + 1 := ⟨fuel - 1, by simp at hf; omega⟩
    have hr := readRepository_encode r (hv r (List.mem_cons_self _ _)) n (0x5D :: rest) hn
    simp only [encodeElements] at hr ⊢
    simp only [readElements, hr, Option.some_bind]
  | cons r' rs ih =>
    intro r fuel rest hv hf hn
    obtain ⟨f, rfl⟩ : ∃ f, fuel = f + 1 := ⟨fuel - 1, by simp at hf; omega⟩
    rw [encodeElements_cons_cons, List.append_assoc, List.cons_append] at hn ⊢
    have hr := readRepository_encode r (hv r (List.mem_cons_self _ _)) n
      (0x2C :: (encodeElements (r' :: rs) ++ 0x5D :: rest)) hn
    have ih' := ih r' f rest (fun x hx => hv x (List.mem_cons_of_mem _ hx))
      (by simp at hf; omega)
      (by simp only [List.length_append, List.length_cons] at hn ⊢; omega)
    simp only [readElements, hr, Option.some_bind, ih', Option.map_some']

/-- Decoding what `json.Marshal` wrote gives the slice back when its strings are valid
UTF-8. -/
theorem jsonUnmarshal_jsonMarshal (repos : RepoSlice) (hv : repos.Valid) :
    jsonUnmarshal (jsonMarshal repos) = .ok repos := by
  cases repos with
  | nil => simp [jsonMarshal, jsonUnmarshal]
  | slice elems =>
    cases elems with
    | nil =>
      have h1 : jsonMarshal (RepoSlice.slice []) = lit "[]" := by decide
      rw [h1]
      have h2 : ¬ (lit "[]" = lit "null") := by decide
      simp [jsonUnmarshal, h2]
    | cons r rs =>
      obtain ⟨t, ht, hl⟩ := encodeElements_head r rs
      have hm : jsonMarshal (RepoSlice.slice (r :: rs))
          = 0x5B :: (encodeElements (r :: rs) ++ [0x5D]) := by
        simp only [jsonMarshal, show lit "[" = [0x5B] by decide, show lit "]" = [0x5D] by decide,
          List.singleton_append, List.cons_append, List.nil_append]
      rw [hm]
      have h1 : ¬ (0x5B :: (encodeElements (r :: rs) ++ [0x5D]) = lit "null") := by
        rw [show lit "null" = [110, 117, 108, 108] by decide]
        simp
      have h2 : ¬ (0x5B :: (encodeElements (r :: rs) ++ [0x5D]) = lit "[]") := by
        rw [show lit "[]" = [0x5B, 0x5D] by decide, ht]
        simp
      have hre := readElements_encode (0x5B :: (encodeElements (r :: rs) ++ [0x5D])).length
        rs r (0x5B :: (encodeElements (r :: rs) ++ [0x5D])).length [] hv
        (by rw [ht]; simp only [List.length_cons, List.length_append]; omega)
        (by simp)
      unfold jsonUnmarshal
      simp only [h1, h2, if_false, hre]

/-! ## Theorems: the cache round trip and the cache-hit path -/

/-- C2 (amended): for every slice of records whose strings are valid UTF-8 (the nil
slice, the empty slice and empty descriptions included), a successful `Save` followed by
`Load` on the same slot, at most `CacheTTL` later, returns the same slice: same length,
same order, and in each record the same `NameWithOwner`, `Description` and `IsPrivate`. -/
theorem save_then_load_round_trip (records : RepoSlice) (w : World) (e : Int)
    (hvalid : records.Valid) (hsaved : (Save goJSON records w).2 = none) (he : e ≤ CacheTTL) :
    Load goJSON { (Save goJSON records w).1 with now := w.now + e } = .ok records := by
  have hrt : jsonUnmarshal (jsonMarshal records) = .ok records :=
    jsonUnmarshal_jsonMarshal records hvalid
  have hfresh : ¬ timeSince (w.now + e) w.now > CacheTTL := by
    rw [timeSince_gt_ttl]; omega
  unfold Save at hsaved ⊢
  cases hc : w.cacheDirErr with
  | some err => simp [GetCachePath, hc] at hsaved
  | none =>
    cases hm : w.mkdirErr with
    | some err => simp [GetCachePath, hc, hm] at hsaved
    | none =>
      cases hw : w.writeErr with
      | some err => simp [GetCachePath, hc, hm, hw, goJSON] at hsaved
      | none => simp [GetCachePath, hc, hm, hw, goJSON, Load, hfresh, hrt]

/-- C2 as stated fails for a record whose string is not valid UTF-8: the description
"caf" followed by the byte 0xE9 (Latin-1 "é") is saved with U+FFFD in place of that byte,
and `Load` returns the altered description. -/
theorem save_then_load_alters_invalid_utf8 :
    (Save goJSON (RepoSlice.slice [⟨lit "acme/api", [0x63, 0x61, 0x66, 0xE9], false⟩])
      demoWorld).2 = none ∧
    Load goJSON (Save goJSON
        (RepoSlice.slice [⟨lit "acme/api", [0x63, 0x61, 0x66, 0xE9], false⟩]) demoWorld).1
      = .ok (RepoSlice.slice [⟨lit "acme/api", [0x63, 0x61, 0x66, 0xEF, 0xBF, 0xBD], false⟩]) ∧
    Load goJSON (Save goJSON
        (RepoSlice.slice [⟨lit "acme/api", [0x63, 0x61, 0x66, 0xE9], false⟩]) demoWorld).1
      ≠ .ok (RepoSlice.slice [⟨lit "acme/api", [0x63, 0x61, 0x66, 0xE9], false⟩]) := by
  decide

set_option maxRecDepth 100000 in
/-- C2 (amended) at a concrete save: the two demo records, one with an empty
description, read back exactly 30 minutes later. -/
theorem save_then_load_round_trip_witness :
    (RepoSlice.slice demoRepos).Valid ∧
    (Save goJSON (RepoSlice.slice demoRepos) demoWorld).2 = none ∧
    Load goJSON { (Save goJSON (RepoSlice.slice demoRepos) demoWorld).1 with
        now := demoWorld.now + CacheTTL } = .ok (RepoSlice.slice demoRepos) :=
  ⟨by decide, by decide,
   save_then_load_round_trip (RepoSlice.slice demoRepos) demoWorld CacheTTL (by decide)
     (by decide) (le_refl _)⟩

set_option maxRecDepth 100000 in
/-- C1 at a concrete cache file holding the two demo records: read exactly 30 minutes
after it was written it is valid, one nanosecond later it is expired. -/
theorem load_valid_iff_within_ttl_witness :
    Load goJSON (cachedWorld (jsonMarshal (RepoSlice.slice demoRepos)) CacheTTL)
      = .ok (RepoSlice.slice demoRepos) ∧
    Load goJSON (cachedWorld (jsonMarshal (RepoSlice.slice demoRepos)) (CacheTTL + 1))
      = .error Error.cacheExpired :=
  ⟨(load_valid_iff_within_ttl goJSON
      (cachedWorld (jsonMarshal (RepoSlice.slice demoRepos)) CacheTTL)
      { modTime := 0, data := jsonMarshal (RepoSlice.slice demoRepos), readErr := none }
      (RepoSlice.slice demoRepos) rfl rfl rfl (by decide)).2.2.2.1 (by decide),
   (load_valid_iff_within_ttl goJSON
      (cachedWorld (jsonMarshal (RepoSlice.slice demoRepos)) (CacheTTL + 1))
      { modTime := 0, data := jsonMarshal (RepoSlice.slice demoRepos), readErr := none }
      (RepoSlice.slice demoRepos) rfl rfl rfl (by decide)).2.2.2.2 (by decide)⟩

/-- C3 (amended): with `noCache = false`, when `cache.Load` returns a dataset that is not
the nil slice (of any length, the empty slice included), `Start` makes no other call than
that `Load` (no `gh.FetchRepos`, no `cache.Save`), leaves the world as it was, and builds
the list from exactly the loaded dataset. When `Load` returns the nil slice without
error, `Start` goes on to fetch, as after a miss. -/
theorem cache_hit_uses_loaded_dataset (C : Codec) (E : ListEngine) (w : World) (s : Session)
    (repos : RepoSlice) (hload : Load C w = .ok repos) :
    (repos.isNil = false →
      (Start C E false w s).calls = [Call.Load] ∧
      (Start C E false w s).items = some (repoItems repos) ∧
      (Start C E false w s).world = w) ∧
    (repos.isNil = true →
      (Start C E false w s).calls.take 2 = [Call.Load, Call.FetchRepos 1000 false]) := by
  constructor
  · intro hn
    simp [Start, provideRepos, hload, hn]
  · intro hn
    cases hF : FetchRepos C 1000 false w <;> simp [Start, provideRepos, hload, hn, hF]

set_option maxRecDepth 100000 in
/-- C3 as stated fails: a fresh cache file holding `null` makes `Load` succeed with the
nil slice, and `Start` then calls `gh.FetchRepos` and `cache.Save` and shows the fetched
dataset. -/
theorem cache_hit_nil_dataset_refetches :
    Load goJSON (cachedWorld (lit "null") 0) = .ok RepoSlice.nil ∧
    (Start goJSON basicList false (cachedWorld (lit "null") 0)
        { msgs := [], runErr := none }).calls
      = [Call.Load, Call.FetchRepos 1000 false, Call.Save (RepoSlice.slice demoRepos)] ∧
    (Start goJSON basicList false (cachedWorld (lit "null") 0)
        { msgs := [], runErr := none }).items
      = some (repoItems (RepoSlice.slice demoRepos)) := by
  decide

/-- C3 (amended) at a concrete cache file holding the empty array: the empty dataset is
used and nothing is fetched. -/
theorem cache_hit_uses_loaded_dataset_witness :
    (Start goJSON basicList false (cachedWorld (lit "[]") 0)
        { msgs := [], runErr := none }).calls = [Call.Load] ∧
    (Start goJSON basicList false (cachedWorld (lit "[]") 0)
        { msgs := [], runErr := none }).items = some [] :=
  ⟨((cache_hit_uses_loaded_dataset goJSON basicList (cachedWorld (lit "[]") 0)
      { msgs := [], runErr := none } (RepoSlice.slice []) (by decide)).1 rfl).1,
   ((cache_hit_uses_loaded_dataset goJSON basicList (cachedWorld (lit "[]") 0)
      { msgs := [], runErr := none } (RepoSlice.slice []) (by decide)).1 rfl).2.1⟩

set_option maxRecDepth 100000 in
/-- C4 at a concrete run: the cache file is fresh and valid, yet with `noCache = true`
the dataset is fetched and saved again. -/
theorem start_no_cache_fetches_once_witness :
    (Start goJSON basicList true
        (cachedWorld (jsonMarshal (RepoSlice.slice demoRepos)) 0)
        { msgs := [], runErr := none }).calls
      = [Call.FetchRepos 1000 false, Call.Save (RepoSlice.slice demoRepos)] :=
  ((start_no_cache_fetches_once goJSON basicList
      (cachedWorld (jsonMarshal (RepoSlice.slice demoRepos)) 0)
      { msgs := [], runErr := none }).2.2 (RepoSlice.slice demoRepos) (by decide)).1

set_option maxRecDepth 100000 in
/-- C5 at the spec's scenario B: the cache file was written 45 minutes ago, so `Load`
fails with "cache expired" and the result of the one fetch is the result of the phase. -/
theorem provide_error_iff_fetch_failed_witness :
    Load goJSON (cachedWorld (jsonMarshal (RepoSlice.slice demoRepos)) (45 * Minute))
      = .error Error.cacheExpired ∧
    (provideRepos goJSON false
        (cachedWorld (jsonMarshal (RepoSlice.slice demoRepos)) (45 * Minute))).result
      = FetchRepos goJSON 1000 false
          (cachedWorld (jsonMarshal (RepoSlice.slice demoRepos)) (45 * Minute)) :=
  ⟨(provide_error_iff_fetch_failed goJSON basicList false
      (cachedWorld (jsonMarshal (RepoSlice.slice demoRepos)) (45 * Minute))
      { msgs := [], runErr := none }).2.2.1
      { modTime := 0, data := jsonMarshal (RepoSlice.slice demoRepos), readErr := none }
      rfl rfl (by decide),
   ((provide_error_iff_fetch_failed goJSON basicList false
      (cachedWorld (jsonMarshal (RepoSlice.slice demoRepos)) (45 * Minute))
      { msgs := [], runErr := none }).2.1 Error.cacheExpired (by decide)).2.2⟩

end GhSelect
